import Mathlib

/-!
# Store-key codec of the `governors` module

A shallow embedding of `x/governors/types/keys.go` and theorems about the
key builders and parsers it defines, followed by an embedding of the
channel-confirmation middleware of `x/hub-genesis/keeper/ibc_module.go`.

Conventions of the embedding.

* A Go `[]byte` is a `List (Fin 256)`, the bytes up to its length. The index
  key parsers slice and index only behind a length assertion or with bounds
  that exclude every capacity, so there the bounds are checked against the
  length (`slice`). `ParseGovernorQueueKey` slices without a length check:
  it takes the bytes of the backing array between the length and the capacity
  of its argument as the parameter `spare`, and its slice expressions with an
  explicit upper bound are checked against the capacity (`sliceCap`).
* A Go function that can abort (run-time bounds fault, or an explicit
  `panic`) returns `Except Panic _`; `Except.ok` is normal return.
* Arithmetic on values of Go type `byte` is written on `Nat` with an explicit
  `% 256`, arithmetic on `uint64` with an explicit `% 2 ^ 64`; `int` is the
  64-bit signed type. Lengths of slices are natural numbers: exhaustion of
  memory by an allocation is not modelled.
* Functions of the Cosmos SDK that the file calls (`address.MustLengthPrefix`,
  `kv.AssertKeyAtLeastLength`, `sdk.Uint64ToBigEndian`, ...) are embedded by
  their library definition; functions whose result depends on data outside
  the file (bech32 decoding, the time codec) are parameters.
-/

namespace Governors

/-! ## Bytes, faults and the slice primitives of the language -/

abbrev Byte := Fin 256

abbrev Bytes := List Byte

/-- Reasons for which a call aborts instead of returning. -/
inductive Panic where
  /-- run-time fault: index or slice bounds out of range -/
  | outOfRange
  /-- `kv.AssertKeyAtLeastLength` found the key too short -/
  | keyTooShort
  /-- `address.MustLengthPrefix` on an address longer than `MaxAddrLen` -/
  | addrTooLong
  /-- `panic(err)` after `sdk.ValAddressFromBech32` returned an error -/
  | invalidAddress
  /-- `math.Int.Quo` with a zero divisor -/
  | divisionByZero
  /-- `math.Int.Int64` on a value outside the `int64` range -/
  | int64OutOfBound
  deriving DecidableEq, Repr

instance decEqExcept {ε α : Type} [DecidableEq ε] [DecidableEq α] : DecidableEq (Except ε α)
  | .ok a, .ok b => if h : a = b then isTrue (by rw [h]) else isFalse (fun e => h (Except.ok.inj e))
  | .error a, .error b =>
    if h : a = b then isTrue (by rw [h]) else isFalse (fun e => h (Except.error.inj e))
  | .ok _, .error _ => isFalse (fun e => Except.noConfusion e)
  | .error _, .ok _ => isFalse (fun e => Except.noConfusion e)

/-- The conversion `byte(n)` of an integer: truncation to the low 8 bits. -/
def byteOf (n : Nat) : Byte := ⟨n % 256, Nat.mod_lt n (by decide)⟩

/-- The complement `^b` of a byte. -/
def complement (b : Byte) : Byte := ⟨255 - b.val, by omega⟩

/-- Index expression `s[i]`. -/
def index (s : Bytes) (i : Nat) : Except Panic Byte :=
  if h : i < s.length then .ok (s.get ⟨i, h⟩) else .error .outOfRange

/-- Slice expression `s[lo:hi]` with the bounds checked against the length of
`s`: a slice whose capacity is its length (for spare capacity see `sliceCap`). -/
def slice (s : Bytes) (lo hi : Nat) : Except Panic Bytes :=
  if lo ≤ hi ∧ hi ≤ s.length then .ok ((s.take hi).drop lo) else .error .outOfRange

/-- Slice expression `s[lo:]`. -/
def sliceFrom (s : Bytes) (lo : Nat) : Except Panic Bytes :=
  slice s lo s.length

/-- Slice expression `s[lo:hi]` on a slice whose backing array holds the bytes
`spare` between the length and the capacity of `s`: the bounds are checked
against the capacity, and the result may hold bytes of `spare`. -/
def sliceCap (s spare : Bytes) (lo hi : Nat) : Except Panic Bytes :=
  slice (s ++ spare) lo hi

/-- Slice expression `s[:hi]` on a slice with the spare capacity `spare`. -/
def sliceTo (s spare : Bytes) (hi : Nat) : Except Panic Bytes :=
  sliceCap s spare 0 hi

/-- The allocation `make([]byte, n)`: `n` zero bytes. -/
def make (n : Nat) : Bytes := List.replicate n 0

/-- The statement `copy(dst[lo:hi], src)`, returning the updated `dst`:
`min (hi - lo) (len src)` bytes of `src` are written from offset `lo`. -/
def copySlice (dst : Bytes) (lo hi : Nat) (src : Bytes) : Except Panic Bytes :=
  if lo ≤ hi ∧ hi ≤ dst.length then
    .ok (dst.take lo ++ src.take (min (hi - lo) src.length)
      ++ dst.drop (lo + min (hi - lo) src.length))
  else .error .outOfRange

/-- The statement `copy(dst[lo:], src)`. -/
def copyFrom (dst : Bytes) (lo : Nat) (src : Bytes) : Except Panic Bytes :=
  copySlice dst lo dst.length src

/-- The assignment `dst[i] = b`, returning the updated `dst`. -/
def setIndex (dst : Bytes) (i : Nat) (b : Byte) : Except Panic Bytes :=
  if i < dst.length then .ok (dst.set i b) else .error .outOfRange

/-! ## SDK helpers called by the file -/

/-- SDK `kv.AssertKeyAtLeastLength(bz, length)`: panics when `len(bz) < length`. -/
def AssertKeyAtLeastLength (bz : Bytes) (length : Nat) : Except Panic Unit :=
  if bz.length < length then .error .keyTooShort else .ok ()

/-- SDK `address.MaxAddrLen`. -/
def MaxAddrLen : Nat := 255

/-- SDK `address.MustLengthPrefix(bz)` (`LengthPrefix` with a panic on error):
an empty `bz` is returned as it is, a `bz` longer than `MaxAddrLen` is an
error, and any other `bz` is returned behind one byte holding its length. -/
def MustLengthPrefix (bz : Bytes) : Except Panic Bytes :=
  if bz.length = 0 then .ok bz
  else if bz.length > MaxAddrLen then .error .addrTooLong
  else .ok ([byteOf bz.length] ++ bz)

/-! ## Store prefixes -/

def LastGovernorPowerKey : Bytes := [0x11]
def LastTotalPowerKey : Bytes := [0x12]
def GovernorsKey : Bytes := [0x21]
def GovernorsByConsAddrKey : Bytes := [0x22]
def GovernorsByPowerIndexKey : Bytes := [0x23]
def DelegationKey : Bytes := [0x31]
def UnbondingDelegationKey : Bytes := [0x32]
def UnbondingDelegationByValIndexKey : Bytes := [0x33]
def RedelegationKey : Bytes := [0x34]
def RedelegationByValSrcIndexKey : Bytes := [0x35]
def RedelegationByValDstIndexKey : Bytes := [0x36]
def UnbondingQueueKey : Bytes := [0x41]
def RedelegationQueueKey : Bytes := [0x42]
def GovernorQueueKey : Bytes := [0x43]
def HistoricalInfoKey : Bytes := [0x50]

/-! ## Address keys -/

def GetGovernorKey (operatorAddr : Bytes) : Except Panic Bytes := do
  let lp ← MustLengthPrefix operatorAddr
  pure (GovernorsKey ++ lp)

def AddressFromGovernorsKey (key : Bytes) : Except Panic Bytes := do
  AssertKeyAtLeastLength key 3
  sliceFrom key 2

def AddressFromLastGovernorPowerKey (key : Bytes) : Except Panic Bytes := do
  AssertKeyAtLeastLength key 3
  sliceFrom key 2

def GetLastGovernorPowerKey (operator : Bytes) : Except Panic Bytes := do
  let lp ← MustLengthPrefix operator
  pure (LastGovernorPowerKey ++ lp)

def GetDelegationsKey (delAddr : Bytes) : Except Panic Bytes := do
  let lp ← MustLengthPrefix delAddr
  pure (DelegationKey ++ lp)

def GetDelegationKey (delAddr valAddr : Bytes) : Except Panic Bytes := do
  let pre ← GetDelegationsKey delAddr
  let lp ← MustLengthPrefix valAddr
  pure (pre ++ lp)

def GetUBDsKey (delAddr : Bytes) : Except Panic Bytes := do
  let lp ← MustLengthPrefix delAddr
  pure (UnbondingDelegationKey ++ lp)

def GetUBDsByValIndexKey (valAddr : Bytes) : Except Panic Bytes := do
  let lp ← MustLengthPrefix valAddr
  pure (UnbondingDelegationByValIndexKey ++ lp)

def GetUBDKey (delAddr valAddr : Bytes) : Except Panic Bytes := do
  let pre ← GetUBDsKey delAddr
  let lp ← MustLengthPrefix valAddr
  pure (pre ++ lp)

def GetUBDByValIndexKey (delAddr valAddr : Bytes) : Except Panic Bytes := do
  let pre ← GetUBDsByValIndexKey valAddr
  let lp ← MustLengthPrefix delAddr
  pure (pre ++ lp)

def GetUBDKeyFromValIndexKey (indexKey : Bytes) : Except Panic Bytes := do
  AssertKeyAtLeastLength indexKey 2
  let addrs ← sliceFrom indexKey 1
  let valAddrLen := (← index addrs 0).val
  AssertKeyAtLeastLength addrs (2 + valAddrLen)
  let valAddr ← slice addrs 1 ((1 + valAddrLen) % 256)
  AssertKeyAtLeastLength addrs (3 + valAddrLen)
  let delAddr ← sliceFrom addrs ((valAddrLen + 2) % 256)
  GetUBDKey delAddr valAddr

def GetREDsKey (delAddr : Bytes) : Except Panic Bytes := do
  let lp ← MustLengthPrefix delAddr
  pure (RedelegationKey ++ lp)

def GetREDsFromValSrcIndexKey (valSrcAddr : Bytes) : Except Panic Bytes := do
  let lp ← MustLengthPrefix valSrcAddr
  pure (RedelegationByValSrcIndexKey ++ lp)

def GetREDsToValDstIndexKey (valDstAddr : Bytes) : Except Panic Bytes := do
  let lp ← MustLengthPrefix valDstAddr
  pure (RedelegationByValDstIndexKey ++ lp)

def GetREDKey (delAddr valSrcAddr valDstAddr : Bytes) : Except Panic Bytes := do
  let key := make (1 + 3 + delAddr.length + valSrcAddr.length + valDstAddr.length)
  let pre ← GetREDsKey delAddr
  let key ← copySlice key 0 (2 + delAddr.length) pre
  let key ← setIndex key (2 + delAddr.length) (byteOf valSrcAddr.length)
  let key ← copySlice key (3 + delAddr.length)
    (3 + delAddr.length + valSrcAddr.length) valSrcAddr
  let key ← setIndex key (3 + delAddr.length + valSrcAddr.length) (byteOf valDstAddr.length)
  let key ← copyFrom key (4 + delAddr.length + valSrcAddr.length) valDstAddr
  pure key

def GetREDByValSrcIndexKey (delAddr valSrcAddr valDstAddr : Bytes) : Except Panic Bytes := do
  let REDSFromValsSrcKey ← GetREDsFromValSrcIndexKey valSrcAddr
  let offset := REDSFromValsSrcKey.length
  let key := make (offset + 2 + delAddr.length + valDstAddr.length)
  let key ← copySlice key 0 offset REDSFromValsSrcKey
  let key ← setIndex key offset (byteOf delAddr.length)
  let key ← copySlice key (offset + 1) (offset + 1 + delAddr.length) delAddr
  let key ← setIndex key (offset + 1 + delAddr.length) (byteOf valDstAddr.length)
  let key ← copyFrom key (offset + 2 + delAddr.length) valDstAddr
  pure key

def GetREDByValDstIndexKey (delAddr valSrcAddr valDstAddr : Bytes) : Except Panic Bytes := do
  let REDSToValsDstKey ← GetREDsToValDstIndexKey valDstAddr
  let offset := REDSToValsDstKey.length
  let key := make (offset + 2 + delAddr.length + valSrcAddr.length)
  let key ← copySlice key 0 offset REDSToValsDstKey
  let key ← setIndex key offset (byteOf delAddr.length)
  let key ← copySlice key (offset + 1) (offset + 1 + delAddr.length) delAddr
  let key ← setIndex key (offset + 1 + delAddr.length) (byteOf valSrcAddr.length)
  let key ← copyFrom key (offset + 2 + delAddr.length) valSrcAddr
  pure key

def GetREDKeyFromValSrcIndexKey (indexKey : Bytes) : Except Panic Bytes := do
  AssertKeyAtLeastLength indexKey 2
  let addrs ← sliceFrom indexKey 1
  let valSrcAddrLen := (← index addrs 0).val
  AssertKeyAtLeastLength addrs (valSrcAddrLen + 2)
  let valSrcAddr ← slice addrs 1 ((valSrcAddrLen + 1) % 256)
  let delAddrLen := (← index addrs ((valSrcAddrLen + 1) % 256)).val
  AssertKeyAtLeastLength addrs (valSrcAddrLen + delAddrLen + 2)
  let delAddr ← slice addrs ((valSrcAddrLen + 2) % 256)
    ((valSrcAddrLen + 2 + delAddrLen) % 256)
  AssertKeyAtLeastLength addrs (valSrcAddrLen + delAddrLen + 4)
  let valDstAddr ← sliceFrom addrs ((valSrcAddrLen + delAddrLen + 3) % 256)
  GetREDKey delAddr valSrcAddr valDstAddr

def GetREDKeyFromValDstIndexKey (indexKey : Bytes) : Except Panic Bytes := do
  AssertKeyAtLeastLength indexKey 2
  let addrs ← sliceFrom indexKey 1
  let valDstAddrLen := (← index addrs 0).val
  AssertKeyAtLeastLength addrs (valDstAddrLen + 2)
  let valDstAddr ← slice addrs 1 ((valDstAddrLen + 1) % 256)
  let delAddrLen := (← index addrs ((valDstAddrLen + 1) % 256)).val
  AssertKeyAtLeastLength addrs (valDstAddrLen + delAddrLen + 3)
  let delAddr ← slice addrs ((valDstAddrLen + 2) % 256)
    ((valDstAddrLen + 2 + delAddrLen) % 256)
  AssertKeyAtLeastLength addrs (valDstAddrLen + delAddrLen + 4)
  let valSrcAddr ← sliceFrom addrs ((valDstAddrLen + delAddrLen + 3) % 256)
  GetREDKey delAddr valSrcAddr valDstAddr

/-! ## Fixed-width integers -/

/-- The conversion `uint64(x)` of a signed integer. -/
def uint64 (x : Int) : Nat := (x % 2 ^ 64).toNat

/-- The conversion `int64(v)` (and, on the 64-bit platform, `int(v)`) of an
unsigned 64-bit value. -/
def int64 (v : Nat) : Int :=
  if v % 2 ^ 64 < 2 ^ 63 then ((v % 2 ^ 64 : Nat) : Int) else ((v % 2 ^ 64 : Nat) : Int) - 2 ^ 64

/-- The result of an addition of two `int` values: wrap-around in 64 bits. -/
def wrapInt (x : Int) : Int := int64 (uint64 x)

/-- Slice expression `s[lo:hi]` with operands of type `int`, on a slice with
the spare capacity `spare`. -/
def sliceInt (s spare : Bytes) (lo hi : Int) : Except Panic Bytes :=
  if 0 ≤ lo ∧ 0 ≤ hi then sliceCap s spare lo.toNat hi.toNat else .error .outOfRange

/-- Slice expression `s[lo:]` with an operand of type `int`: the upper bound
is the length of `s`, whatever its capacity. -/
def sliceFromInt (s : Bytes) (lo : Int) : Except Panic Bytes :=
  if 0 ≤ lo then sliceFrom s lo.toNat else .error .outOfRange

/-- The eight bytes that `binary.BigEndian.PutUint64` stores for `v`:
`byte(v >> 56)`, `byte(v >> 48)`, ..., `byte(v)`. -/
def bigEndian8 (v : Nat) : Bytes :=
  [byteOf (v >>> 56), byteOf (v >>> 48), byteOf (v >>> 40), byteOf (v >>> 32),
    byteOf (v >>> 24), byteOf (v >>> 16), byteOf (v >>> 8), byteOf v]

/-- Library `binary.BigEndian.PutUint64(b, v)`, returning the updated `b`: a
bounds check on `b[7]`, then the eight bytes of `v` stored in `b[0]` to `b[7]`. -/
def PutUint64 (b : Bytes) (v : Nat) : Except Panic Bytes :=
  if b.length < 8 then .error .outOfRange
  else .ok (bigEndian8 v ++ b.drop 8)

/-- Library `binary.BigEndian.Uint64(b)`: a bounds check on `b[7]`, then the
value of the first eight bytes, most significant first. -/
def Uint64 (b : Bytes) : Except Panic Nat :=
  match b with
  | b0 :: b1 :: b2 :: b3 :: b4 :: b5 :: b6 :: b7 :: _ =>
    .ok (b7.val ||| b6.val <<< 8 ||| b5.val <<< 16 ||| b4.val <<< 24
      ||| b3.val <<< 32 ||| b2.val <<< 40 ||| b1.val <<< 48 ||| b0.val <<< 56)
  | _ => .error .outOfRange

/-- SDK `sdk.Uint64ToBigEndian(i)`. -/
def Uint64ToBigEndian (i : Nat) : Except Panic Bytes :=
  PutUint64 (make 8) i

/-- SDK `sdk.BigEndianToUint64(bz)`: `0` on an empty slice, else `Uint64`. -/
def BigEndianToUint64 (bz : Bytes) : Except Panic Nat :=
  if bz.length = 0 then .ok 0 else Uint64 bz

/-! ## Power-rank index -/

/-- The fields of a governor that the key builders read. -/
structure Governor where
  OperatorAddress : String
  Tokens : Int

/-- SDK `sdk.TokensToConsensusPower(tokens, powerReduction)`, which is
`tokens.Quo(powerReduction).Int64()`: truncated division, aborting on a zero
divisor and on a quotient outside the `int64` range. -/
def TokensToConsensusPower (tokens powerReduction : Int) : Except Panic Int :=
  if powerReduction = 0 then .error .divisionByZero
  else if -(2 ^ 63) ≤ tokens.tdiv powerReduction ∧ tokens.tdiv powerReduction < 2 ^ 63 then
    .ok (tokens.tdiv powerReduction)
  else .error .int64OutOfBound

/-- The builder of the power-rank index key. `ValAddressFromBech32` is the SDK
decoder of the textual operator address (`none`: it returned an error). -/
def GetGovernorsByPowerIndexKey (ValAddressFromBech32 : String → Option Bytes)
    (governor : Governor) (powerReduction : Int) : Except Panic Bytes := do
  let consensusPower ← TokensToConsensusPower governor.Tokens powerReduction
  let consensusPowerBytes := make 8
  let consensusPowerBytes ← PutUint64 consensusPowerBytes (uint64 consensusPower)
  let powerBytes := consensusPowerBytes
  let powerBytesLen := powerBytes.length
  let addr ← match ValAddressFromBech32 governor.OperatorAddress with
    | some addr => Except.ok addr
    | none => Except.error Panic.invalidAddress
  let operAddrInvr := addr
  let addrLen := operAddrInvr.length
  let operAddrInvr := operAddrInvr.map complement
  let key := make (1 + powerBytesLen + 1 + addrLen)
  let p ← index GovernorsByPowerIndexKey 0
  let key ← setIndex key 0 p
  let key ← copySlice key 1 (powerBytesLen + 1) powerBytes
  let key ← setIndex key (powerBytesLen + 1) (byteOf addrLen)
  let key ← copyFrom key (powerBytesLen + 2) operAddrInvr
  pure key

def ParseGovernorPowerRankKey (key : Bytes) : Except Panic Bytes := do
  let powerBytesLen := 8
  let operAddr ← sliceFrom key (powerBytesLen + 2)
  pure (operAddr.map complement)

/-! ## Time-queue keys

The time codec of the runtime (`sdk.FormatTimeBytes`, `sdk.ParseTimeBytes`) is
a parameter, over an arbitrary type `Time` of timestamps and an arbitrary
type `E` of decoding errors. -/

/-- The error values `ParseGovernorQueueKey` returns. -/
inductive QueueKeyError (E : Type) where
  /-- `fmt.Errorf("invalid prefix; expected: %X, got: %X", expected, got)` -/
  | invalidPrefix (expected got : Bytes)
  /-- the error returned by `sdk.ParseTimeBytes` -/
  | parseTime (err : E)
  deriving DecidableEq, Repr

def GetGovernorQueueKey {Time : Type} (FormatTimeBytes : Time → Bytes)
    (timestamp : Time) (height : Int) : Except Panic Bytes := do
  let heightBz ← Uint64ToBigEndian (uint64 height)
  let timeBz := FormatTimeBytes timestamp
  let timeBzL := timeBz.length
  let prefixL := GovernorQueueKey.length
  let bz := make (prefixL + 8 + timeBzL + 8)
  let bz ← copySlice bz 0 prefixL GovernorQueueKey
  let timeBzLBz ← Uint64ToBigEndian (timeBzL % 2 ^ 64)
  let bz ← copySlice bz prefixL (prefixL + 8) timeBzLBz
  let bz ← copySlice bz (prefixL + 8) (prefixL + 8 + timeBzL) timeBz
  let bz ← copyFrom bz (prefixL + 8 + timeBzL) heightBz
  pure bz

/-- The parser of the governor-queue key; `zeroTime` is `time.Time{}`, `bz`
the bytes of the argument up to its length and `spare` the bytes of its
backing array between its length and its capacity (empty for a slice whose
capacity is its length, such as a key made by `GetGovernorQueueKey`). The
result is the returned triple, its third component `none` for a `nil` error. -/
def ParseGovernorQueueKey {Time E : Type} (ParseTimeBytes : Bytes → Except E Time)
    (zeroTime : Time) (spare : Bytes) (bz : Bytes) :
    Except Panic (Time × Int × Option (QueueKeyError E)) := do
  let prefixL := GovernorQueueKey.length
  let pfx ← sliceTo bz spare prefixL
  if pfx ≠ GovernorQueueKey then
    pure (zeroTime, 0, some (QueueKeyError.invalidPrefix GovernorQueueKey pfx))
  else
    let timeBzLBz ← sliceCap bz spare prefixL (prefixL + 8)
    let timeBzL ← BigEndianToUint64 timeBzLBz
    let tsBz ← sliceInt bz spare (prefixL + 8) (wrapInt (prefixL + 8 + int64 timeBzL))
    match ParseTimeBytes tsBz with
    | .error err => pure (zeroTime, 0, some (QueueKeyError.parseTime err))
    | .ok ts =>
      let heightBz ← sliceFromInt bz (wrapInt (prefixL + 8 + int64 timeBzL))
      let height ← BigEndianToUint64 heightBz
      pure (ts, int64 height, none)

/-- Timestamp keys of the unbonding and redelegation queues. -/
def GetUnbondingDelegationTimeKey {Time : Type} (FormatTimeBytes : Time → Bytes)
    (timestamp : Time) : Bytes :=
  UnbondingQueueKey ++ FormatTimeBytes timestamp

def GetRedelegationTimeKey {Time : Type} (FormatTimeBytes : Time → Bytes)
    (timestamp : Time) : Bytes :=
  RedelegationQueueKey ++ FormatTimeBytes timestamp

/-! ## Order of keys in the store -/

/-- Library `bytes.Compare`: the lexicographic order of byte strings, under
which the store iterates its keys. -/
def bytesCompare : Bytes → Bytes → Ordering
  | [], [] => .eq
  | [], _ :: _ => .lt
  | _ :: _, [] => .gt
  | a :: as, b :: bs =>
    if a.val < b.val then .lt else if b.val < a.val then .gt else bytesCompare as bs

/-- The value of a byte string read as a big-endian natural number. -/
def bigEndianValue (bz : Bytes) : Nat :=
  bz.foldl (fun acc b => acc * 256 + b.val) 0


/-- The fifteen store prefixes that the file declares, in the order of their
declaration. -/
def storePrefixes : List Bytes :=
  [LastGovernorPowerKey, LastTotalPowerKey, GovernorsKey, GovernorsByConsAddrKey,
    GovernorsByPowerIndexKey, DelegationKey, UnbondingDelegationKey,
    UnbondingDelegationByValIndexKey, RedelegationKey, RedelegationByValSrcIndexKey,
    RedelegationByValDstIndexKey, UnbondingQueueKey, RedelegationQueueKey, GovernorQueueKey,
    HistoricalInfoKey]

end Governors

/-! # Genesis transfers on channel confirmation

A shallow embedding of `OnChanOpenConfirmInterceptor.OnChanOpenConfirm` and
`createMemo` of `x/hub-genesis/keeper/ibc_module.go`. The wrapped IBC module,
the transfer callback, the denom-metadata lookup and `json.Marshal` are
parameters (fields of `Interceptor`); the effects of a call (coins minted,
messages handed to the transfer callback, errors appended to `errs`) are
recorded in the `Outcome` next to the returned error. -/

namespace HubGenesis

/-- A coin: `sdk.Coin`. -/
structure Coin where
  Denom : String
  Amount : Nat
  deriving DecidableEq, Repr

/-- A genesis account of the module state. -/
structure GenesisAccount where
  Amount : Coin
  Address : String
  deriving DecidableEq, Repr

/-- The format strings with which an error is wrapped, with their arguments. -/
inductive Context where
  /-- `"get denom metadata"` -/
  | getDenomMetadata
  /-- `"create memo: coin: %s"` -/
  | createMemo (coin : Coin)
  /-- `"transfer: receiver: %s: amt: %s"` -/
  | transfer (receiver : String) (amt : Coin)
  deriving DecidableEq, Repr

/-- Error values. -/
inductive Err where
  /-- `sdkerrors.ErrNotFound` -/
  | notFound
  /-- `sdkerrors.ErrJSONMarshal` -/
  | jsonMarshal
  /-- an error returned by the wrapped module or by the transfer callback -/
  | callback (code : Nat)
  /-- `errorsmod.Wrap(inner, ...)` and `errorsmod.Wrapf(inner, ...)` -/
  | wrapped (inner : Err) (context : Context)
  deriving DecidableEq, Repr

/-- A non-nil value of type `error` that `OnChanOpenConfirm` returns: an error
as such, or the result of `errors.Join` (the non-nil errors it was given). -/
inductive Returned where
  | plain (err : Err)
  | joined (errs : List Err)
  deriving DecidableEq, Repr

/-- Library `errors.Join(errs...)`: `nil` when every value is `nil`, otherwise
an error that wraps the non-nil values. -/
def errorsJoin (errs : List (Option Err)) : Option Returned :=
  match errs.filterMap id with
  | [] => none
  | es => some (Returned.joined es)

/-- The payload of the memo: the struct `memo`. -/
structure Memo (Metadata : Type) where
  Denom : Metadata
  TotalNumTransfers : Nat
  ThisTransferIx : Nat

/-- The fields of `transfertypes.MsgTransfer` that the function sets
(`TimeoutHeight` is the zero height). -/
structure MsgTransfer where
  SourcePort : String
  SourceChannel : String
  Token : Coin
  Sender : String
  Receiver : String
  TimeoutTimestamp : Nat
  Memo : String
  deriving DecidableEq, Repr

/-- The interceptor with what it reads from its context: the wrapped module
(`none`: it returned `nil`), the transfer callback, the metadata lookup,
`json.Marshal` on a memo (`none`: it returned an error), the genesis accounts
of the state, the address of the module account and the block time in
nanoseconds. -/
structure Interceptor (Metadata : Type) where
  next : String → String → Option Err
  transfer : MsgTransfer → Option Err
  getDenom : String → Option Metadata
  marshal : Memo Metadata → Option String
  genesisAccounts : List GenesisAccount
  srcAddr : String
  blockTimeUnixNano : Int

/-- What a call of `OnChanOpenConfirm` returns and does. -/
structure Outcome where
  /-- the returned error, `none` for `nil` -/
  returned : Option Returned
  /-- whether `mintCoins` was called -/
  minted : Bool
  /-- the messages handed to the transfer callback, in order -/
  sent : List MsgTransfer
  /-- the final value of the local slice `errs` -/
  errs : List Err
  deriving DecidableEq, Repr

def isHub (_portID _channelID : String) : Bool := true

def createMemo {Metadata : Type} (c : Interceptor Metadata) (denom : String) (i n : Nat) :
    Except Err String :=
  match c.getDenom denom with
  | none => .error (Err.wrapped Err.notFound Context.getDenomMetadata)
  | some d =>
    let m : Memo Metadata :=
      { Denom := d, TotalNumTransfers := n % 2 ^ 64, ThisTransferIx := i % 2 ^ 64 }
    match c.marshal m with
    | none => .error Err.jsonMarshal
    | some bz => .ok bz

/-- One iteration of the loop over the genesis accounts, on the pair of `errs`
and of the messages sent so far. -/
def transferStep {Metadata : Type} (c : Interceptor Metadata) (portID channelID : String)
    (st : List Err × List MsgTransfer) (ia : Nat × GenesisAccount) :
    List Err × List MsgTransfer :=
  match createMemo c ia.2.Amount.Denom ia.1 c.genesisAccounts.length with
  | .error err => (st.1 ++ [Err.wrapped err (Context.createMemo ia.2.Amount)], st.2)
  | .ok memo =>
    let m : MsgTransfer :=
      { SourcePort := portID,
        SourceChannel := channelID,
        Token := ia.2.Amount,
        Sender := c.srcAddr,
        Receiver := ia.2.Address,
        TimeoutTimestamp := Governors.uint64 (c.blockTimeUnixNano + 24 * 3600 * 10 ^ 9),
        Memo := memo }
    match c.transfer m with
    | some err =>
      (st.1 ++ [Err.wrapped err (Context.transfer ia.2.Address ia.2.Amount)], st.2 ++ [m])
    | none => (st.1, st.2 ++ [m])

def OnChanOpenConfirm {Metadata : Type} (c : Interceptor Metadata)
    (portID channelID : String) : Outcome :=
  let err := c.next portID channelID
  if err ≠ none then
    { returned := err.map Returned.plain, minted := false, sent := [], errs := [] }
  else if !isHub portID channelID then
    { returned := none, minted := false, sent := [], errs := [] }
  else
    let st := c.genesisAccounts.enum.foldl (transferStep c portID channelID) ([], [])
    let err := errorsJoin [err]
    { returned := err, minted := true, sent := st.2, errs := st.1 }

/-- The interceptor of the failing input: the wrapped module succeeds, the
transfer callback refuses the receiver `carol`, and the denom `nometa` has no
metadata. -/
def failingInterceptor : Interceptor String :=
  { next := fun _ _ => none,
    transfer := fun m => if m.Receiver = "carol" then some (Err.callback 7) else none,
    getDenom := fun d => if d = "nometa" then none else some d,
    marshal := fun m => some m.Denom,
    genesisAccounts :=
      [{ Amount := { Denom := "nometa", Amount := 10 }, Address := "alice" },
       { Amount := { Denom := "udym", Amount := 20 }, Address := "bob" },
       { Amount := { Denom := "udym", Amount := 30 }, Address := "carol" }],
    srcAddr := "module",
    blockTimeUnixNano := 0 }

end HubGenesis

namespace Governors

/-! ## Lemmas on the primitives -/

@[simp] theorem ok_bind {α β : Type} (x : α) (f : α → Except Panic β) :
    (Except.ok x >>= f) = f x := rfl

@[simp] theorem error_bind {α β : Type} (e : Panic) (f : α → Except Panic β) :
    ((Except.error e : Except Panic α) >>= f) = Except.error e := rfl

theorem byteOf_val (n : Nat) (h : n ≤ 255) : (byteOf n).val = n := by
  show n % 256 = n
  omega

theorem index_at (s pre : Bytes) (b : Byte) (post : Bytes) (i : Nat)
    (hs : s = pre ++ b :: post) (hi : i = pre.length) : index s i = .ok b := by
  subst hs hi
  have h : pre.length < (pre ++ b :: post).length := by simp
  have e : (pre ++ b :: post)[pre.length] = b := by
    rw [List.getElem_append_right (Nat.le_refl _)]
    simp
  simp [index, e]

theorem slice_at (s pre mid post : Bytes) (lo hi : Nat)
    (hs : s = pre ++ (mid ++ post)) (hlo : lo = pre.length) (hhi : hi = lo + mid.length) :
    slice s lo hi = .ok mid := by
  subst hs hlo hhi
  have h : (pre ++ (mid ++ post)).take (pre.length + mid.length) = pre ++ mid := by
    rw [← List.append_assoc]
    exact List.take_left' (by simp)
  simp [slice, h]

theorem sliceFrom_at (s pre post : Bytes) (lo : Nat)
    (hs : s = pre ++ post) (hlo : lo = pre.length) : sliceFrom s lo = .ok post := by
  subst hs hlo
  have h : (pre ++ post).take (pre ++ post).length = pre ++ post := List.take_length _
  simp only [sliceFrom, slice, h]
  simp

theorem assert_ok (bz : Bytes) (n : Nat) (h : n ≤ bz.length) :
    AssertKeyAtLeastLength bz n = .ok () := by
  simp [AssertKeyAtLeastLength]; omega

theorem assert_fail (bz : Bytes) (n : Nat) (h : bz.length < n) :
    AssertKeyAtLeastLength bz n = .error .keyTooShort := by
  simp [AssertKeyAtLeastLength, h]

/-- Writing `src` into a zero-filled tail right behind what is already written. -/
theorem copySlice_fill (done src : Bytes) (n lo hi : Nat)
    (hlo : lo = done.length) (hhi : hi = lo + src.length) (hn : src.length ≤ n) :
    copySlice (done ++ List.replicate n 0) lo hi src
      = .ok ((done ++ src) ++ List.replicate (n - src.length) 0) := by
  subst hlo hhi
  have h1 : done.length + src.length ≤ (done ++ List.replicate n (0 : Byte)).length := by
    simp; omega
  simp [copySlice, List.drop_append_eq_append_drop, List.drop_eq_nil_of_le]
  omega

theorem setIndex_fill (done : Bytes) (b : Byte) (n i : Nat)
    (hi : i = done.length) (hn : 1 ≤ n) :
    setIndex (done ++ List.replicate n 0) i b
      = .ok ((done ++ [b]) ++ List.replicate (n - 1) 0) := by
  subst hi
  obtain ⟨m, rfl⟩ : ∃ m, n = m + 1 := ⟨n - 1, by omega⟩
  simp [setIndex, List.replicate_succ]

theorem copyFrom_fill (done src : Bytes) (n lo : Nat)
    (hlo : lo = done.length) (hn : src.length = n) :
    copyFrom (done ++ List.replicate n 0) lo src = .ok (done ++ src) := by
  unfold copyFrom
  rw [copySlice_fill done src n lo _ hlo (by simp; omega) (by omega)]
  simp [hn]

theorem MustLengthPrefix_ok (bz : Bytes) (h0 : 0 < bz.length) (h1 : bz.length ≤ 255) :
    MustLengthPrefix bz = .ok (byteOf bz.length :: bz) := by
  have e0 : ¬ bz.length = 0 := by omega
  have e1 : ¬ bz.length > MaxAddrLen := by simp only [MaxAddrLen]; omega
  simp only [MustLengthPrefix, e0, e1, if_false]
  rfl


/-! ## Closed forms of the builders -/

theorem GetREDsKey_ok (del : Bytes) (h0 : 0 < del.length) (h1 : del.length ≤ 255) :
    GetREDsKey del = .ok (0x34 :: byteOf del.length :: del) := by
  simp [GetREDsKey, MustLengthPrefix_ok del h0 h1, RedelegationKey]

theorem GetREDKey_eq (del src dst : Bytes) (h1 : del.length ≤ 255) :
    GetREDKey del src dst
      = .ok (0x34 :: byteOf del.length :: del ++ byteOf src.length :: src
          ++ byteOf dst.length :: dst) := by
  unfold GetREDKey
  rcases Nat.eq_zero_or_pos del.length with h0 | h0
  · have hd : del = [] := List.length_eq_zero.mp h0
    subst hd
    have e : make (1 + 3 + ([] : Bytes).length + src.length + dst.length)
        = [0, 0] ++ List.replicate (2 + src.length + dst.length) 0 := by
      have : 1 + 3 + ([] : Bytes).length + src.length + dst.length
          = (2 + src.length + dst.length) + 1 + 1 := by simp; omega
      rw [make, this, List.replicate_succ, List.replicate_succ]
      rfl
    have e2 : GetREDsKey [] = .ok [0x34] := by decide
    have e3 : copySlice ([0, 0] ++ List.replicate (2 + src.length + dst.length) 0) 0
        (2 + ([] : Bytes).length) [0x34]
        = .ok ([0x34, 0] ++ List.replicate (2 + src.length + dst.length) 0) := by
      simp [copySlice]
    simp only [e, e2, ok_bind, e3]
    rw [setIndex_fill _ _ _ _ (by simp) (by omega)]
    simp only [ok_bind]
    rw [copySlice_fill _ _ _ _ _ (by simp) (by simp) (by omega)]
    simp only [ok_bind]
    rw [setIndex_fill _ _ _ _ (by simp; omega) (by omega)]
    simp only [ok_bind]
    rw [copyFrom_fill _ _ _ _ (by simp; omega) (by omega)]
    simp [byteOf]
  · have e : make (1 + 3 + del.length + src.length + dst.length)
        = [] ++ List.replicate (1 + 3 + del.length + src.length + dst.length) 0 := rfl
    simp only [e, GetREDsKey_ok del h0 h1, ok_bind]
    rw [copySlice_fill _ _ _ _ _ (by simp) (by simp; omega) (by simp; omega)]
    simp only [ok_bind]
    rw [setIndex_fill _ _ _ _ (by simp; omega) (by simp; omega)]
    simp only [ok_bind]
    rw [copySlice_fill _ _ _ _ _ (by simp; omega) (by simp) (by simp; omega)]
    simp only [ok_bind]
    rw [setIndex_fill _ _ _ _ (by simp; omega) (by simp; omega)]
    simp only [ok_bind]
    rw [copyFrom_fill _ _ _ _ (by simp; omega) (by simp; omega)]
    simp


theorem GetREDByValSrcIndexKey_eq (del src dst : Bytes)
    (h0 : 0 < src.length) (h1 : src.length ≤ 255) :
    GetREDByValSrcIndexKey del src dst
      = .ok (0x35 :: byteOf src.length :: src ++ byteOf del.length :: del
          ++ byteOf dst.length :: dst) := by
  unfold GetREDByValSrcIndexKey
  have e0 : GetREDsFromValSrcIndexKey src = .ok (0x35 :: byteOf src.length :: src) := by
    simp [GetREDsFromValSrcIndexKey, MustLengthPrefix_ok src h0 h1,
      RedelegationByValSrcIndexKey]
  have e : ∀ n, make n = [] ++ List.replicate n 0 := fun _ => rfl
  simp only [e0, ok_bind, e]
  rw [copySlice_fill _ _ _ _ _ (by simp) (by simp) (by simp; omega)]
  simp only [ok_bind]
  rw [setIndex_fill _ _ _ _ (by simp) (by simp; omega)]
  simp only [ok_bind]
  rw [copySlice_fill _ _ _ _ _ (by simp) (by simp) (by simp; omega)]
  simp only [ok_bind]
  rw [setIndex_fill _ _ _ _ (by simp; omega) (by simp; omega)]
  simp only [ok_bind]
  rw [copyFrom_fill _ _ _ _ (by simp; omega) (by simp; omega)]
  simp

theorem GetREDByValDstIndexKey_eq (del src dst : Bytes)
    (h0 : 0 < dst.length) (h1 : dst.length ≤ 255) :
    GetREDByValDstIndexKey del src dst
      = .ok (0x36 :: byteOf dst.length :: dst ++ byteOf del.length :: del
          ++ byteOf src.length :: src) := by
  unfold GetREDByValDstIndexKey
  have e0 : GetREDsToValDstIndexKey dst = .ok (0x36 :: byteOf dst.length :: dst) := by
    simp [GetREDsToValDstIndexKey, MustLengthPrefix_ok dst h0 h1,
      RedelegationByValDstIndexKey]
  have e : ∀ n, make n = [] ++ List.replicate n 0 := fun _ => rfl
  simp only [e0, ok_bind, e]
  rw [copySlice_fill _ _ _ _ _ (by simp) (by simp) (by simp; omega)]
  simp only [ok_bind]
  rw [setIndex_fill _ _ _ _ (by simp) (by simp; omega)]
  simp only [ok_bind]
  rw [copySlice_fill _ _ _ _ _ (by simp) (by simp) (by simp; omega)]
  simp only [ok_bind]
  rw [setIndex_fill _ _ _ _ (by simp; omega) (by simp; omega)]
  simp only [ok_bind]
  rw [copyFrom_fill _ _ _ _ (by simp; omega) (by simp; omega)]
  simp

/-! ## The index-key parsers on a well-formed index key -/

theorem GetREDKeyFromValSrcIndexKey_at (p bt : Byte) (del src dst : Bytes)
    (h : src.length + del.length + 3 ≤ 255) (ht : 0 < dst.length) :
    GetREDKeyFromValSrcIndexKey
        (p :: byteOf src.length :: src ++ byteOf del.length :: del ++ bt :: dst)
      = GetREDKey del src dst := by
  unfold GetREDKeyFromValSrcIndexKey
  have vs : (byteOf src.length).val = src.length := byteOf_val _ (by omega)
  have vd : (byteOf del.length).val = del.length := byteOf_val _ (by omega)
  have m1 : (src.length + 1) % 256 = src.length + 1 := Nat.mod_eq_of_lt (by omega)
  have m2 : (src.length + 2) % 256 = src.length + 2 := Nat.mod_eq_of_lt (by omega)
  have m3 : (src.length + 2 + del.length) % 256 = src.length + 2 + del.length :=
    Nat.mod_eq_of_lt (by omega)
  have m4 : (src.length + del.length + 3) % 256 = src.length + del.length + 3 :=
    Nat.mod_eq_of_lt (by omega)
  rw [assert_ok _ 2 (by simp)]
  simp only [ok_bind]
  rw [sliceFrom_at _ [p] (byteOf src.length :: src ++ byteOf del.length :: del ++ bt :: dst)
    1 (by simp) (by simp)]
  simp only [ok_bind]
  rw [index_at _ [] (byteOf src.length) (src ++ byteOf del.length :: del ++ bt :: dst)
    0 (by simp) (by simp)]
  simp only [ok_bind, vs, m1, m2, m3, m4]
  rw [assert_ok _ _ (by simp)]
  simp only [ok_bind]
  rw [slice_at _ [byteOf src.length] src (byteOf del.length :: del ++ bt :: dst)
    1 _ (by simp) (by simp) (by omega)]
  simp only [ok_bind]
  rw [index_at _ (byteOf src.length :: src) (byteOf del.length) (del ++ bt :: dst)
    _ (by simp) (by simp)]
  simp only [ok_bind, vd, m3, m4]
  rw [assert_ok _ _ (by simp; omega)]
  simp only [ok_bind]
  rw [slice_at _ (byteOf src.length :: src ++ [byteOf del.length]) del (bt :: dst)
    _ _ (by simp) (by simp) (by simp)]
  simp only [ok_bind]
  rw [assert_ok _ _ (by simp; omega)]
  simp only [ok_bind]
  rw [sliceFrom_at _ (byteOf src.length :: src ++ byteOf del.length :: del ++ [bt]) dst
    _ (by simp) (by simp; omega)]
  rfl

theorem GetREDKeyFromValDstIndexKey_at (p bt : Byte) (del src dst : Bytes)
    (h : dst.length + del.length + 3 ≤ 255) (ht : 0 < src.length) :
    GetREDKeyFromValDstIndexKey
        (p :: byteOf dst.length :: dst ++ byteOf del.length :: del ++ bt :: src)
      = GetREDKey del src dst := by
  unfold GetREDKeyFromValDstIndexKey
  have vs : (byteOf dst.length).val = dst.length := byteOf_val _ (by omega)
  have vd : (byteOf del.length).val = del.length := byteOf_val _ (by omega)
  have m1 : (dst.length + 1) % 256 = dst.length + 1 := Nat.mod_eq_of_lt (by omega)
  have m2 : (dst.length + 2) % 256 = dst.length + 2 := Nat.mod_eq_of_lt (by omega)
  have m3 : (dst.length + 2 + del.length) % 256 = dst.length + 2 + del.length :=
    Nat.mod_eq_of_lt (by omega)
  have m4 : (dst.length + del.length + 3) % 256 = dst.length + del.length + 3 :=
    Nat.mod_eq_of_lt (by omega)
  rw [assert_ok _ 2 (by simp)]
  simp only [ok_bind]
  rw [sliceFrom_at _ [p] (byteOf dst.length :: dst ++ byteOf del.length :: del ++ bt :: src)
    1 (by simp) (by simp)]
  simp only [ok_bind]
  rw [index_at _ [] (byteOf dst.length) (dst ++ byteOf del.length :: del ++ bt :: src)
    0 (by simp) (by simp)]
  simp only [ok_bind, vs, m1, m2, m3, m4]
  rw [assert_ok _ _ (by simp)]
  simp only [ok_bind]
  rw [slice_at _ [byteOf dst.length] dst (byteOf del.length :: del ++ bt :: src)
    1 _ (by simp) (by simp) (by omega)]
  simp only [ok_bind]
  rw [index_at _ (byteOf dst.length :: dst) (byteOf del.length) (del ++ bt :: src)
    _ (by simp) (by simp)]
  simp only [ok_bind, vd, m3, m4]
  rw [assert_ok _ _ (by simp; omega)]
  simp only [ok_bind]
  rw [slice_at _ (byteOf dst.length :: dst ++ [byteOf del.length]) del (bt :: src)
    _ _ (by simp) (by simp) (by simp)]
  simp only [ok_bind]
  rw [assert_ok _ _ (by simp; omega)]
  simp only [ok_bind]
  rw [sliceFrom_at _ (byteOf dst.length :: dst ++ byteOf del.length :: del ++ [bt]) src
    _ (by simp) (by simp; omega)]
  rfl

/-! ## Simple keys and unbonding-delegation keys -/

theorem simpleKey_ok (p : Bytes) (a : Bytes) (h0 : 0 < a.length) (h1 : a.length ≤ 255) :
    (do let lp ← MustLengthPrefix a; pure (p ++ lp) : Except Panic Bytes)
      = .ok (p ++ byteOf a.length :: a) := by
  rw [MustLengthPrefix_ok a h0 h1]
  rfl

theorem GetUBDKey_ok (del val : Bytes) (hd0 : 0 < del.length) (hd1 : del.length ≤ 255)
    (hv0 : 0 < val.length) (hv1 : val.length ≤ 255) :
    GetUBDKey del val
      = .ok (0x32 :: byteOf del.length :: del ++ byteOf val.length :: val) := by
  unfold GetUBDKey GetUBDsKey
  rw [simpleKey_ok _ del hd0 hd1, MustLengthPrefix_ok val hv0 hv1]
  rfl

theorem GetUBDByValIndexKey_ok (del val : Bytes) (hd0 : 0 < del.length)
    (hd1 : del.length ≤ 255) (hv0 : 0 < val.length) (hv1 : val.length ≤ 255) :
    GetUBDByValIndexKey del val
      = .ok (0x33 :: byteOf val.length :: val ++ byteOf del.length :: del) := by
  unfold GetUBDByValIndexKey GetUBDsByValIndexKey
  rw [simpleKey_ok _ val hv0 hv1, MustLengthPrefix_ok del hd0 hd1]
  rfl

theorem GetUBDKeyFromValIndexKey_at (p bd : Byte) (del val : Bytes)
    (hv : val.length ≤ 253) (hd : 0 < del.length) :
    GetUBDKeyFromValIndexKey (p :: byteOf val.length :: val ++ bd :: del)
      = GetUBDKey del val := by
  unfold GetUBDKeyFromValIndexKey
  have vs : (byteOf val.length).val = val.length := byteOf_val _ (by omega)
  have m1 : (1 + val.length) % 256 = 1 + val.length := Nat.mod_eq_of_lt (by omega)
  have m2 : (val.length + 2) % 256 = val.length + 2 := Nat.mod_eq_of_lt (by omega)
  rw [assert_ok _ 2 (by simp)]
  simp only [ok_bind]
  rw [sliceFrom_at _ [p] (byteOf val.length :: val ++ bd :: del) 1 (by simp) (by simp)]
  simp only [ok_bind]
  rw [index_at _ [] (byteOf val.length) (val ++ bd :: del) 0 (by simp) (by simp)]
  simp only [ok_bind, vs, m1, m2]
  rw [assert_ok _ _ (by simp; omega)]
  simp only [ok_bind]
  rw [slice_at _ [byteOf val.length] val (bd :: del) 1 _ (by simp) (by simp) (by simp)]
  simp only [ok_bind]
  rw [assert_ok _ _ (by simp; omega)]
  simp only [ok_bind]
  rw [sliceFrom_at _ (byteOf val.length :: val ++ [bd]) del _ (by simp) (by simp)]
  rfl

/-! ## Round trips through the secondary-index keys -/

/-- C1, as amended: for all addresses with a non-empty source governor
address, a non-empty destination governor address and
`len(src) + len(delegator) + 3 ≤ 255`,
`GetREDKeyFromValSrcIndexKey(GetREDByValSrcIndexKey(delegator, src, dst))`
returns, without failing, exactly the bytes of `GetREDKey(delegator, src, dst)`. -/
theorem red_src_index_round_trip (del src dst : Bytes) (hs : 0 < src.length)
    (ht : 0 < dst.length) (h : src.length + del.length + 3 ≤ 255) :
    ∃ key, GetREDKey del src dst = .ok key ∧
      (GetREDByValSrcIndexKey del src dst >>= GetREDKeyFromValSrcIndexKey) = .ok key := by
  refine ⟨_, GetREDKey_eq del src dst (by omega), ?_⟩
  rw [GetREDByValSrcIndexKey_eq del src dst hs (by omega), ok_bind,
    GetREDKeyFromValSrcIndexKey_at _ _ del src dst h ht]
  exact GetREDKey_eq del src dst (by omega)

theorem red_src_index_round_trip_witness :
    0 < ([3] : Bytes).length ∧ 0 < ([4, 5, 6] : Bytes).length ∧
    ([3] : Bytes).length + ([1, 2] : Bytes).length + 3 ≤ 255 ∧
    ∃ key, GetREDKey [1, 2] [3] [4, 5, 6] = .ok key ∧
      (GetREDByValSrcIndexKey [1, 2] [3] [4, 5, 6] >>= GetREDKeyFromValSrcIndexKey)
        = .ok key :=
  ⟨by decide, by decide, by decide,
    red_src_index_round_trip [1, 2] [3] [4, 5, 6] (by decide) (by decide) (by decide)⟩

/-- C1 fails as stated: for delegator `01`, source `02` and an empty
destination address the index key is `35 01 02 01 01 00`, on which the parser
aborts at its last length assertion, while `GetREDKey` returns
`34 01 01 01 02 00`. -/
theorem red_src_index_round_trip_empty_dst :
    GetREDByValSrcIndexKey [1] [2] [] = .ok [0x35, 1, 2, 1, 1, 0] ∧
    GetREDKeyFromValSrcIndexKey [0x35, 1, 2, 1, 1, 0] = .error .keyTooShort ∧
    GetREDKey [1] [2] [] = .ok [0x34, 1, 1, 1, 2, 0] := by
  decide

/-- C2, as amended: for all addresses with a non-empty source governor
address, a non-empty destination governor address and
`len(dst) + len(delegator) + 3 ≤ 255`,
`GetREDKeyFromValDstIndexKey(GetREDByValDstIndexKey(delegator, src, dst))`
returns, without failing, exactly the bytes of `GetREDKey(delegator, src, dst)`. -/
theorem red_dst_index_round_trip (del src dst : Bytes) (hs : 0 < src.length)
    (ht : 0 < dst.length) (h : dst.length + del.length + 3 ≤ 255) :
    ∃ key, GetREDKey del src dst = .ok key ∧
      (GetREDByValDstIndexKey del src dst >>= GetREDKeyFromValDstIndexKey) = .ok key := by
  refine ⟨_, GetREDKey_eq del src dst (by omega), ?_⟩
  rw [GetREDByValDstIndexKey_eq del src dst ht (by omega), ok_bind,
    GetREDKeyFromValDstIndexKey_at _ _ del src dst h hs]
  exact GetREDKey_eq del src dst (by omega)

theorem red_dst_index_round_trip_witness :
    0 < ([3] : Bytes).length ∧ 0 < ([4, 5, 6] : Bytes).length ∧
    ([4, 5, 6] : Bytes).length + ([1, 2] : Bytes).length + 3 ≤ 255 ∧
    ∃ key, GetREDKey [1, 2] [3] [4, 5, 6] = .ok key ∧
      (GetREDByValDstIndexKey [1, 2] [3] [4, 5, 6] >>= GetREDKeyFromValDstIndexKey)
        = .ok key :=
  ⟨by decide, by decide, by decide,
    red_dst_index_round_trip [1, 2] [3] [4, 5, 6] (by decide) (by decide) (by decide)⟩

/-- C2 fails as stated: for delegator `01`, destination `03` and an empty
source address the index key is `36 01 03 01 01 00`, on which the parser
aborts at its last length assertion, while `GetREDKey` returns
`34 01 01 00 01 03`. -/
theorem red_dst_index_round_trip_empty_src :
    GetREDByValDstIndexKey [1] [] [3] = .ok [0x36, 1, 3, 1, 1, 0] ∧
    GetREDKeyFromValDstIndexKey [0x36, 1, 3, 1, 1, 0] = .error .keyTooShort ∧
    GetREDKey [1] [] [3] = .ok [0x34, 1, 1, 0, 1, 3] := by
  decide

/-- C6, as amended: for every delegator address `d` of 1 to 255 bytes and
every governor address `v` of 1 to 253 bytes,
`GetUBDKeyFromValIndexKey(GetUBDByValIndexKey(d, v))` returns, without
failing, exactly `GetUBDKey(d, v)`. -/
theorem ubd_val_index_round_trip (d v : Bytes) (hd0 : 0 < d.length) (hd1 : d.length ≤ 255)
    (hv0 : 0 < v.length) (hv1 : v.length ≤ 253) :
    ∃ key, GetUBDKey d v = .ok key ∧
      (GetUBDByValIndexKey d v >>= GetUBDKeyFromValIndexKey) = .ok key := by
  refine ⟨_, GetUBDKey_ok d v hd0 hd1 hv0 (by omega), ?_⟩
  rw [GetUBDByValIndexKey_ok d v hd0 hd1 hv0 (by omega), ok_bind,
    GetUBDKeyFromValIndexKey_at _ _ d v hv1 hd0]
  exact GetUBDKey_ok d v hd0 hd1 hv0 (by omega)

theorem ubd_val_index_round_trip_witness :
    0 < ([1, 2] : Bytes).length ∧ ([1, 2] : Bytes).length ≤ 255 ∧
    0 < ([4, 5, 6] : Bytes).length ∧ ([4, 5, 6] : Bytes).length ≤ 253 ∧
    ∃ key, GetUBDKey [1, 2] [4, 5, 6] = .ok key ∧
      (GetUBDByValIndexKey [1, 2] [4, 5, 6] >>= GetUBDKeyFromValIndexKey) = .ok key :=
  ⟨by decide, by decide, by decide, by decide,
    ubd_val_index_round_trip [1, 2] [4, 5, 6] (by decide) (by decide) (by decide)
      (by decide)⟩

/-- C6 fails as stated: for an empty delegator address and governor address
`07` the index key is `33 01 07`, on which the parser aborts at the length
assertion `AssertKeyAtLeastLength(addrs, 2+valAddrLen)` (3 bytes wanted, 2
present), while `GetUBDKey` returns `32 01 07`. -/
theorem ubd_val_index_round_trip_empty_delegator :
    GetUBDByValIndexKey [] [7] = .ok [0x33, 1, 7] ∧
    GetUBDKeyFromValIndexKey [0x33, 1, 7] = .error .keyTooShort ∧
    GetUBDKey [] [7] = .ok [0x32, 1, 7] := by
  decide

/-! ## Simple keys -/

/-- C5, as amended: for every address `a` of 1 to 255 bytes,
`AddressFromGovernorsKey(GetGovernorKey(a)) == a` and
`AddressFromLastGovernorPowerKey(GetLastGovernorPowerKey(a)) == a`, without
failing. -/
theorem simple_key_address_round_trip (a : Bytes) (h0 : 0 < a.length)
    (h1 : a.length ≤ 255) :
    (GetGovernorKey a >>= AddressFromGovernorsKey) = .ok a ∧
    (GetLastGovernorPowerKey a >>= AddressFromLastGovernorPowerKey) = .ok a := by
  unfold GetGovernorKey GetLastGovernorPowerKey AddressFromGovernorsKey
    AddressFromLastGovernorPowerKey
  rw [simpleKey_ok _ a h0 h1, simpleKey_ok _ a h0 h1]
  simp only [ok_bind, GovernorsKey, LastGovernorPowerKey]
  rw [assert_ok _ 3 (by simp; omega), assert_ok _ 3 (by simp; omega)]
  simp only [ok_bind]
  rw [sliceFrom_at _ [0x21, byteOf a.length] a 2 (by simp) (by simp),
    sliceFrom_at _ [0x11, byteOf a.length] a 2 (by simp) (by simp)]
  exact ⟨rfl, rfl⟩

theorem simple_key_address_round_trip_witness :
    0 < ([0x0A, 0x0B] : Bytes).length ∧ ([0x0A, 0x0B] : Bytes).length ≤ 255 ∧
    (GetGovernorKey [0x0A, 0x0B] >>= AddressFromGovernorsKey) = .ok [0x0A, 0x0B] ∧
    (GetLastGovernorPowerKey [0x0A, 0x0B] >>= AddressFromLastGovernorPowerKey)
      = .ok [0x0A, 0x0B] :=
  ⟨by decide, by decide, simple_key_address_round_trip [0x0A, 0x0B] (by decide) (by decide)⟩

/-- C5 fails as stated: on the empty address the builders return the bare
prefix, and both parsers abort on their length assertion (a key of at least 3
bytes). -/
theorem simple_key_address_round_trip_empty :
    GetGovernorKey [] = .ok [0x21] ∧
    AddressFromGovernorsKey [0x21] = .error .keyTooShort ∧
    GetLastGovernorPowerKey [] = .ok [0x11] ∧
    AddressFromLastGovernorPowerKey [0x11] = .error .keyTooShort := by
  decide

/-- C9, as amended: for every address `a` of length 1 to 255, each simple key
builder returns exactly its one-byte prefix, followed by one byte equal to
`len(a)`, followed by `a`, so the key has length `len(a) + 2`. -/
theorem simple_key_layout (a : Bytes) (h0 : 0 < a.length) (h1 : a.length ≤ 255) :
    (byteOf a.length).val = a.length ∧
    GetGovernorKey a = .ok (0x21 :: byteOf a.length :: a) ∧
    GetLastGovernorPowerKey a = .ok (0x11 :: byteOf a.length :: a) ∧
    GetDelegationsKey a = .ok (0x31 :: byteOf a.length :: a) ∧
    GetUBDsKey a = .ok (0x32 :: byteOf a.length :: a) ∧
    GetUBDsByValIndexKey a = .ok (0x33 :: byteOf a.length :: a) ∧
    GetREDsKey a = .ok (0x34 :: byteOf a.length :: a) ∧
    GetREDsFromValSrcIndexKey a = .ok (0x35 :: byteOf a.length :: a) ∧
    GetREDsToValDstIndexKey a = .ok (0x36 :: byteOf a.length :: a) ∧
    ∀ p : Byte, (p :: byteOf a.length :: a).length = a.length + 2 := by
  refine ⟨byteOf_val _ h1, ?_, ?_, ?_, ?_, ?_, ?_, ?_, ?_, fun p => by simp⟩
  · exact simpleKey_ok GovernorsKey a h0 h1
  · exact simpleKey_ok LastGovernorPowerKey a h0 h1
  · exact simpleKey_ok DelegationKey a h0 h1
  · exact simpleKey_ok UnbondingDelegationKey a h0 h1
  · exact simpleKey_ok UnbondingDelegationByValIndexKey a h0 h1
  · exact simpleKey_ok RedelegationKey a h0 h1
  · exact simpleKey_ok RedelegationByValSrcIndexKey a h0 h1
  · exact simpleKey_ok RedelegationByValDstIndexKey a h0 h1

theorem simple_key_layout_witness :
    0 < ([0x0A, 0x0B] : Bytes).length ∧ ([0x0A, 0x0B] : Bytes).length ≤ 255 ∧
    GetGovernorKey [0x0A, 0x0B] = .ok [0x21, 2, 0x0A, 0x0B] ∧
    GetREDsToValDstIndexKey [0x0A, 0x0B] = .ok [0x36, 2, 0x0A, 0x0B] :=
  ⟨by decide, by decide,
    (simple_key_layout [0x0A, 0x0B] (by decide) (by decide)).2.1,
    (simple_key_layout [0x0A, 0x0B] (by decide) (by decide)).2.2.2.2.2.2.2.2.1⟩

/-- C9 fails as stated: on the empty address `address.MustLengthPrefix` adds
no length byte, so each simple key builder returns its prefix alone, a key of
length 1, and not the prefix followed by a zero byte. -/
theorem simple_key_layout_empty :
    GetGovernorKey [] = .ok [0x21] ∧
    GetLastGovernorPowerKey [] = .ok [0x11] ∧
    GetDelegationsKey [] = .ok [0x31] ∧
    GetUBDsKey [] = .ok [0x32] ∧
    GetUBDsByValIndexKey [] = .ok [0x33] ∧
    GetREDsKey [] = .ok [0x34] ∧
    GetREDsFromValSrcIndexKey [] = .ok [0x35] ∧
    GetREDsToValDstIndexKey [] = .ok [0x36] ∧
    GetGovernorKey [] ≠ .ok [0x21, byteOf ([] : Bytes).length] := by
  decide

/-! ## Power-rank index key -/

theorem complement_complement (b : Byte) : complement (complement b) = b := by
  apply Fin.ext
  show 255 - (255 - b.val) = b.val
  omega

theorem map_complement_complement (a : Bytes) : (a.map complement).map complement = a := by
  induction a with
  | nil => rfl
  | cons b t ih =>
    show complement (complement b) :: (t.map complement).map complement = b :: t
    rw [complement_complement, ih]

theorem Uint64ToBigEndian_eq (v : Nat) : Uint64ToBigEndian v = .ok (bigEndian8 v) := by
  simp [Uint64ToBigEndian, PutUint64, make]

theorem GetGovernorsByPowerIndexKey_eq (dec : String → Option Bytes) (g : Governor)
    (pr : Int) (a : Bytes) (n : Int) (hdec : dec g.OperatorAddress = some a)
    (hpow : TokensToConsensusPower g.Tokens pr = .ok n) :
    GetGovernorsByPowerIndexKey dec g pr
      = .ok (0x23 :: bigEndian8 (uint64 n) ++ byteOf a.length :: a.map complement) := by
  unfold GetGovernorsByPowerIndexKey
  have e1 : PutUint64 (make 8) (uint64 n) = .ok (bigEndian8 (uint64 n)) :=
    Uint64ToBigEndian_eq _
  have e2 : (bigEndian8 (uint64 n)).length = 8 := rfl
  have e3 : index GovernorsByPowerIndexKey 0 = .ok 0x23 := rfl
  have e : ∀ k, make k = [] ++ List.replicate k 0 := fun _ => rfl
  simp only [hpow, ok_bind, e1, hdec, e2, e3]
  rw [e]
  rw [setIndex_fill _ _ _ _ (by simp) (by omega)]
  simp only [ok_bind]
  rw [copySlice_fill _ _ _ _ _ (by simp) (by simp [e2]) (by simp [e2]; omega)]
  simp only [ok_bind]
  rw [setIndex_fill _ _ _ _ (by simp [e2]) (by simp [e2]; omega)]
  simp only [ok_bind]
  rw [copyFrom_fill _ _ _ _ (by simp [e2]) (by simp [e2]; omega)]
  simp

theorem ParseGovernorPowerRankKey_at (p : Byte) (pw : Bytes) (l : Byte) (x : Bytes)
    (hpw : pw.length = 8) :
    ParseGovernorPowerRankKey (p :: pw ++ l :: x) = .ok (x.map complement) := by
  unfold ParseGovernorPowerRankKey
  simp only []
  rw [sliceFrom_at _ (p :: pw ++ [l]) x _ (by simp) (by simp [hpw])]
  rfl

theorem byteOf_val_eq (n : Nat) : (byteOf n).val = n % 256 := rfl

theorem bigEndianValue_bigEndian8 (v : Nat) (h : v < 2 ^ 64) :
    bigEndianValue (bigEndian8 v) = v := by
  simp only [bigEndianValue, bigEndian8, List.foldl, byteOf_val_eq, Nat.shiftRight_eq_div_pow]
  omega

theorem foldl_value (l : Bytes) (acc : Nat) :
    l.foldl (fun acc b => acc * 256 + b.val) acc
      = acc * 256 ^ l.length + l.foldl (fun acc b => acc * 256 + b.val) 0 := by
  induction l generalizing acc with
  | nil => simp
  | cons b t ih =>
    simp only [List.foldl, List.length_cons]
    rw [ih (acc * 256 + b.val), ih (0 * 256 + b.val)]
    ring

theorem bigEndianValue_cons (b : Byte) (t : Bytes) :
    bigEndianValue (b :: t) = b.val * 256 ^ t.length + bigEndianValue t := by
  simp only [bigEndianValue, List.foldl]
  rw [foldl_value]
  simp

theorem bigEndianValue_lt (l : Bytes) : bigEndianValue l < 256 ^ l.length := by
  induction l with
  | nil => simp [bigEndianValue]
  | cons b t ih =>
    rw [bigEndianValue_cons, List.length_cons, pow_succ]
    have hb : b.val ≤ 255 := by omega
    have : b.val * 256 ^ t.length ≤ 255 * 256 ^ t.length := Nat.mul_le_mul_right _ hb
    omega

/-- Equal-length byte strings compare as their big-endian values do, whatever follows them. -/
theorem bytesCompare_of_value_lt (p q : Bytes) (hlen : p.length = q.length)
    (hlt : bigEndianValue p < bigEndianValue q) (x y : Bytes) :
    bytesCompare (p ++ x) (q ++ y) = .lt := by
  induction p generalizing q with
  | nil =>
    have : q = [] := List.length_eq_zero.mp hlen.symm
    subst this
    exact absurd hlt (Nat.lt_irrefl _)
  | cons a p ih =>
    cases q with
    | nil => simp at hlen
    | cons b q =>
      have hl : p.length = q.length := by simpa using hlen
      rw [bigEndianValue_cons, bigEndianValue_cons, hl] at hlt
      have hp := bigEndianValue_lt p
      have hq := bigEndianValue_lt q
      rw [hl] at hp
      simp only [List.cons_append, bytesCompare]
      by_cases h1 : a.val < b.val
      · simp [h1]
      · by_cases h2 : b.val < a.val
        · exfalso
          have : (b.val + 1) * 256 ^ q.length ≤ a.val * 256 ^ q.length :=
            Nat.mul_le_mul_right _ h2
          rw [Nat.add_mul] at this
          omega
        · have hab : a.val = b.val := by omega
          rw [hab] at hlt
          simp only [h1, h2, if_false]
          exact ih q hl (by omega)

theorem bigEndian8_length (v : Nat) : (bigEndian8 v).length = 8 := rfl

theorem bytesCompare_bigEndian8 (u v : Nat) (x y : Bytes) (huv : u < v) (hv : v < 2 ^ 64) :
    bytesCompare (bigEndian8 u ++ x) (bigEndian8 v ++ y) = .lt := by
  have hl : (bigEndian8 u).length = (bigEndian8 v).length := by
    rw [bigEndian8_length, bigEndian8_length]
  refine bytesCompare_of_value_lt (bigEndian8 u) (bigEndian8 v) hl ?_ x y
  rw [bigEndianValue_bigEndian8 u (by omega), bigEndianValue_bigEndian8 v hv]
  exact huv

theorem bytesCompare_cons_same (b : Byte) (p q : Bytes) :
    bytesCompare (b :: p) (b :: q) = bytesCompare p q := by
  simp [bytesCompare]

theorem uint64_of_nonneg (n : Int) (h0 : 0 ≤ n) (h1 : n < 2 ^ 64) :
    uint64 n = n.toNat := by
  unfold uint64
  rw [Int.emod_eq_of_lt h0 h1]

set_option maxRecDepth 8192 in
theorem complement_eq_xor : ∀ b : Byte, (complement b).val = b.val ^^^ 255 := by
  decide

/-- C3: for every governor whose operator address decodes to the bytes `a` and
every consensus power `n` (so in particular every `n` in `[0, 2^63)`),
`ParseGovernorPowerRankKey(GetGovernorsByPowerIndexKey(governor))` is `a`. -/
theorem power_rank_key_round_trip (dec : String → Option Bytes) (g : Governor) (pr : Int)
    (a : Bytes) (n : Int) (hdec : dec g.OperatorAddress = some a)
    (hpow : TokensToConsensusPower g.Tokens pr = .ok n) :
    (GetGovernorsByPowerIndexKey dec g pr >>= ParseGovernorPowerRankKey) = .ok a := by
  rw [GetGovernorsByPowerIndexKey_eq dec g pr a n hdec hpow, ok_bind,
    ParseGovernorPowerRankKey_at _ _ _ _ (bigEndian8_length _), map_complement_complement]

theorem power_rank_key_round_trip_witness :
    (fun _ : String => some ([0x0A, 0x0B] : Bytes)) (Governor.mk "gov" 5000000).OperatorAddress
      = some [0x0A, 0x0B] ∧
    TokensToConsensusPower (Governor.mk "gov" 5000000).Tokens 1000000 = .ok 5 ∧
    (GetGovernorsByPowerIndexKey (fun _ => some [0x0A, 0x0B]) (Governor.mk "gov" 5000000)
      1000000 >>= ParseGovernorPowerRankKey) = .ok [0x0A, 0x0B] :=
  ⟨rfl, by decide,
    power_rank_key_round_trip (fun _ => some [0x0A, 0x0B]) (Governor.mk "gov" 5000000)
      1000000 [0x0A, 0x0B] 5 rfl (by decide)⟩

/-- C7: for all consensus powers `n1 < n2` in `[0, 2^63)` and all operator
addresses `a1`, `a2`, the key that `GetGovernorsByPowerIndexKey` builds for
`(a1, n1)` is strictly smaller in byte-lexicographic order than the key it
builds for `(a2, n2)`. -/
theorem power_rank_key_order (dec : String → Option Bytes) (g1 g2 : Governor) (pr : Int)
    (a1 a2 : Bytes) (n1 n2 : Int)
    (hdec1 : dec g1.OperatorAddress = some a1) (hdec2 : dec g2.OperatorAddress = some a2)
    (hpow1 : TokensToConsensusPower g1.Tokens pr = .ok n1)
    (hpow2 : TokensToConsensusPower g2.Tokens pr = .ok n2)
    (h0 : 0 ≤ n1) (hlt : n1 < n2) (h2 : n2 < 2 ^ 63) :
    ∃ k1 k2, GetGovernorsByPowerIndexKey dec g1 pr = .ok k1 ∧
      GetGovernorsByPowerIndexKey dec g2 pr = .ok k2 ∧ bytesCompare k1 k2 = .lt := by
  refine ⟨_, _, GetGovernorsByPowerIndexKey_eq dec g1 pr a1 n1 hdec1 hpow1,
    GetGovernorsByPowerIndexKey_eq dec g2 pr a2 n2 hdec2 hpow2, ?_⟩
  rw [uint64_of_nonneg n1 h0 (by omega), uint64_of_nonneg n2 (by omega) (by omega),
    List.cons_append, List.cons_append, bytesCompare_cons_same]
  exact bytesCompare_bigEndian8 n1.toNat n2.toNat _ _ (by omega) (by omega)

theorem power_rank_key_order_witness :
    ∃ k1 k2,
      GetGovernorsByPowerIndexKey
        (fun s => if s = "a" then some [0xFF] else some [0x00, 0x01])
        (Governor.mk "a" 5000000) 1000000 = .ok k1 ∧
      GetGovernorsByPowerIndexKey
        (fun s => if s = "a" then some [0xFF] else some [0x00, 0x01])
        (Governor.mk "b" 256000000) 1000000 = .ok k2 ∧
      bytesCompare k1 k2 = .lt :=
  power_rank_key_order (fun s => if s = "a" then some [0xFF] else some [0x00, 0x01])
    (Governor.mk "a" 5000000) (Governor.mk "b" 256000000) 1000000 [0xFF] [0x00, 0x01] 5 256
    rfl rfl rfl rfl (by norm_num) (by norm_num) (by norm_num)

theorem TokensToConsensusPower_range (tokens pr n : Int)
    (h : TokensToConsensusPower tokens pr = .ok n) : -(2 ^ 63) ≤ n ∧ n < 2 ^ 63 := by
  unfold TokensToConsensusPower at h
  split_ifs at h with hz hr
  · rw [← Except.ok.inj h]
    exact hr

/-- C10, as amended: for every operator address `a` of at most 255 bytes and
every consensus power `n` in `[0, 2^63)`, the range of the non-negative
values of `sdk.TokensToConsensusPower`, `GetGovernorsByPowerIndexKey` returns
`0x23` followed by the eight bytes of the big-endian encoding of `n`, one
byte equal to `len(a)`, and the complement of each byte of `a`; when the
quotient of tokens and power reduction is `2^63` or more, the builder aborts
in `Int64()`; address `0A 0B` with power 5 yields
`23 00 00 00 00 00 00 00 05 02 F5 F4`, and parsing that key yields `0A 0B`. -/
theorem power_rank_key_layout (dec : String → Option Bytes) (g : Governor) (pr : Int)
    (a : Bytes) (n : Int) (hdec : dec g.OperatorAddress = some a)
    (hpow : TokensToConsensusPower g.Tokens pr = .ok n) (ha : a.length ≤ 255)
    (h0 : 0 ≤ n) :
    n < 2 ^ 63 ∧
    GetGovernorsByPowerIndexKey dec g pr
      = .ok (0x23 :: bigEndian8 (uint64 n) ++ byteOf a.length :: a.map complement) ∧
    (bigEndian8 (uint64 n)).length = 8 ∧
    (bigEndianValue (bigEndian8 (uint64 n)) : Int) = n ∧
    (byteOf a.length).val = a.length ∧
    (∀ b : Byte, (complement b).val = b.val ^^^ 255) ∧
    (∀ (g2 : Governor) (pr2 : Int), pr2 ≠ 0 → 2 ^ 63 ≤ g2.Tokens.tdiv pr2 →
      GetGovernorsByPowerIndexKey dec g2 pr2 = .error .int64OutOfBound) ∧
    GetGovernorsByPowerIndexKey (fun _ => some [0x0A, 0x0B]) (Governor.mk "gov" 5) 1
      = .ok [0x23, 0, 0, 0, 0, 0, 0, 0, 5, 2, 0xF5, 0xF4] ∧
    ParseGovernorPowerRankKey [0x23, 0, 0, 0, 0, 0, 0, 0, 5, 2, 0xF5, 0xF4]
      = .ok [0x0A, 0x0B] := by
  have hr := TokensToConsensusPower_range _ _ _ hpow
  have hu : uint64 n = n.toNat := uint64_of_nonneg n h0 (by omega)
  refine ⟨hr.2, GetGovernorsByPowerIndexKey_eq dec g pr a n hdec hpow, bigEndian8_length _,
    ?_, byteOf_val _ ha, complement_eq_xor, ?_, ?_, ?_⟩
  · rw [hu, bigEndianValue_bigEndian8 _ (by omega), Int.toNat_of_nonneg h0]
  · intro g2 pr2 hz hbig
    have hp : TokensToConsensusPower g2.Tokens pr2 = .error .int64OutOfBound := by
      have hn : ¬ (-(2 ^ 63) ≤ g2.Tokens.tdiv pr2 ∧ g2.Tokens.tdiv pr2 < 2 ^ 63) := by
        omega
      simp only [TokensToConsensusPower, hz, hn, if_false]
    unfold GetGovernorsByPowerIndexKey
    rw [hp]
    rfl
  · decide
  · decide

theorem power_rank_key_layout_witness :
    (5 : Int) < 2 ^ 63 ∧
    GetGovernorsByPowerIndexKey (fun _ => some [0x0A, 0x0B]) (Governor.mk "gov" 5000000)
        1000000
      = .ok (0x23 :: bigEndian8 (uint64 5) ++ byteOf ([0x0A, 0x0B] : Bytes).length
          :: ([0x0A, 0x0B] : Bytes).map complement) ∧
    (bigEndianValue (bigEndian8 (uint64 5)) : Int) = 5 :=
  ⟨(power_rank_key_layout (fun _ => some [0x0A, 0x0B]) (Governor.mk "gov" 5000000) 1000000
      [0x0A, 0x0B] 5 rfl (by decide) (by decide) (by decide)).1,
    (power_rank_key_layout (fun _ => some [0x0A, 0x0B]) (Governor.mk "gov" 5000000) 1000000
      [0x0A, 0x0B] 5 rfl (by decide) (by decide) (by decide)).2.1,
    (power_rank_key_layout (fun _ => some [0x0A, 0x0B]) (Governor.mk "gov" 5000000) 1000000
      [0x0A, 0x0B] 5 rfl (by decide) (by decide) (by decide)).2.2.2.1⟩

/-- C10 fails as stated: for tokens `2^63` and power reduction 1 the
consensus power would be `2^63`, inside the claimed range `[0, 2^64)`;
`sdk.TokensToConsensusPower` aborts in `Int64()` and the builder returns no
key. -/
theorem power_rank_key_power_out_of_range :
    TokensToConsensusPower 9223372036854775808 1 = .error .int64OutOfBound ∧
    GetGovernorsByPowerIndexKey (fun _ => some [0x0A, 0x0B])
      (Governor.mk "gov" 9223372036854775808) 1 = .error .int64OutOfBound ∧
    (9223372036854775808 : Int) = 2 ^ 63 := by
  refine ⟨by decide, by decide, by norm_num⟩

/-! ## Governor-queue key -/

theorem or_shiftLeft_eq_add (x b k : Nat) (hx : x < 2 ^ k) :
    x ||| b <<< k = b * 2 ^ k + x := by
  rw [Nat.shiftLeft_eq, Nat.or_comm, Nat.mul_comm, ← Nat.mul_add_lt_is_or hx]

theorem uint64_or_eq (b0 b1 b2 b3 b4 b5 b6 b7 : Byte) :
    (b7.val ||| b6.val <<< 8 ||| b5.val <<< 16 ||| b4.val <<< 24
      ||| b3.val <<< 32 ||| b2.val <<< 40 ||| b1.val <<< 48 ||| b0.val <<< 56)
    = b0.val * 2 ^ 56 + b1.val * 2 ^ 48 + b2.val * 2 ^ 40 + b3.val * 2 ^ 32
      + b4.val * 2 ^ 24 + b5.val * 2 ^ 16 + b6.val * 2 ^ 8 + b7.val := by
  have h0 := b0.isLt; have h1 := b1.isLt; have h2 := b2.isLt; have h3 := b3.isLt
  have h4 := b4.isLt; have h5 := b5.isLt; have h6 := b6.isLt; have h7 := b7.isLt
  rw [or_shiftLeft_eq_add _ _ 8 (by omega), or_shiftLeft_eq_add _ _ 16 (by omega),
    or_shiftLeft_eq_add _ _ 24 (by omega), or_shiftLeft_eq_add _ _ 32 (by omega),
    or_shiftLeft_eq_add _ _ 40 (by omega), or_shiftLeft_eq_add _ _ 48 (by omega),
    or_shiftLeft_eq_add _ _ 56 (by omega)]
  omega

theorem Uint64_bigEndian8 (v : Nat) (rest : Bytes) (h : v < 2 ^ 64) :
    Uint64 (bigEndian8 v ++ rest) = .ok v := by
  simp only [bigEndian8, List.cons_append, List.nil_append, Uint64]
  rw [uint64_or_eq]
  simp only [byteOf_val_eq, Nat.shiftRight_eq_div_pow]
  congr 1
  omega

theorem BigEndianToUint64_bigEndian8 (v : Nat) (rest : Bytes) (h : v < 2 ^ 64) :
    BigEndianToUint64 (bigEndian8 v ++ rest) = .ok v := by
  have hl : ¬ (bigEndian8 v ++ rest).length = 0 := by
    rw [List.length_append, bigEndian8_length]
    omega
  simp only [BigEndianToUint64, hl, if_false]
  exact Uint64_bigEndian8 v rest h

theorem GetGovernorQueueKey_eq {Time : Type} (fmt : Time → Bytes) (t : Time) (h : Int) :
    GetGovernorQueueKey fmt t h
      = .ok (0x43 :: bigEndian8 ((fmt t).length % 2 ^ 64) ++ fmt t
          ++ bigEndian8 (uint64 h)) := by
  unfold GetGovernorQueueKey
  have e : ∀ k, make k = [] ++ List.replicate k 0 := fun _ => rfl
  have e1 : GovernorQueueKey.length = 1 := rfl
  simp only [Uint64ToBigEndian_eq, ok_bind, e1]
  rw [e]
  rw [copySlice_fill _ _ _ _ _ (by simp) (by simp [GovernorQueueKey])
    (by simp [GovernorQueueKey])]
  simp only [ok_bind]
  rw [copySlice_fill _ _ _ _ _ (by simp [GovernorQueueKey])
    (by simp [bigEndian8_length]) (by simp [GovernorQueueKey, bigEndian8_length]; omega)]
  simp only [ok_bind]
  rw [copySlice_fill _ _ _ _ _ (by simp [GovernorQueueKey, bigEndian8_length])
    (by simp) (by simp [GovernorQueueKey, bigEndian8_length])]
  simp only [ok_bind]
  rw [copyFrom_fill _ _ _ _ (by simp [GovernorQueueKey, bigEndian8_length]; omega)
    (by simp [GovernorQueueKey, bigEndian8_length])]
  simp [GovernorQueueKey]

theorem int64_of_lt (v : Nat) (h : v < 2 ^ 63) : int64 v = (v : Int) := by
  have hm : v % 2 ^ 64 = v := Nat.mod_eq_of_lt (by omega)
  simp only [int64, hm, h, if_true]

theorem wrapInt_of_nat (v : Nat) (h : v < 2 ^ 63) : wrapInt (v : Int) = (v : Int) := by
  unfold wrapInt
  rw [uint64_of_nonneg _ (by omega) (by omega), Int.toNat_ofNat, int64_of_lt v h]

theorem sliceInt_nat (s spare : Bytes) (lo hi : Int) (l h : Nat) (hlo : lo = (l : Int))
    (hhi : hi = (h : Int)) : sliceInt s spare lo hi = slice (s ++ spare) l h := by
  subst hlo hhi
  simp [sliceInt, sliceCap]

theorem sliceFromInt_nat (s : Bytes) (lo : Int) (l : Nat) (hlo : lo = (l : Int)) :
    sliceFromInt s lo = sliceFrom s l := by
  subst hlo
  simp [sliceFromInt]

theorem ParseGovernorQueueKey_at {Time E : Type} (parse : Bytes → Except E Time)
    (zero : Time) (spare : Bytes) (L hv : Nat) (tb : Bytes) (ts : Time)
    (hL : tb.length = L) (hfit : L + 9 < 2 ^ 63) (hhv : hv < 2 ^ 64)
    (hp : parse tb = .ok ts) :
    ParseGovernorQueueKey parse zero spare (0x43 :: bigEndian8 L ++ tb ++ bigEndian8 hv)
      = .ok (ts, int64 hv, none) := by
  unfold ParseGovernorQueueKey
  have e1 : GovernorQueueKey.length = 1 := rfl
  have e2 : sliceTo (0x43 :: bigEndian8 L ++ tb ++ bigEndian8 hv) spare 1
      = .ok [0x43] := by
    simp only [sliceTo, sliceCap]
    exact slice_at _ [] [0x43] (bigEndian8 L ++ tb ++ bigEndian8 hv ++ spare) 0 1 (by simp)
      rfl rfl
  have e3 : ¬ ([0x43] : Bytes) ≠ GovernorQueueKey := by decide
  have e4 : sliceCap (0x43 :: bigEndian8 L ++ tb ++ bigEndian8 hv) spare 1 (1 + 8)
      = .ok (bigEndian8 L) := by
    simp only [sliceCap]
    exact slice_at _ [0x43] (bigEndian8 L) (tb ++ bigEndian8 hv ++ spare) 1 _ (by simp) rfl
      (by rw [bigEndian8_length])
  have e5 : BigEndianToUint64 (bigEndian8 L) = .ok L := by
    have := BigEndianToUint64_bigEndian8 L [] (by omega)
    rwa [List.append_nil] at this
  have e6 : wrapInt (((1 : Nat) : Int) + 8 + int64 L) = ((9 + L : Nat) : Int) := by
    rw [int64_of_lt L (by omega)]
    have : ((1 : Nat) : Int) + 8 + (L : Int) = ((9 + L : Nat) : Int) := by push_cast; ring
    rw [this]
    exact wrapInt_of_nat _ (by omega)
  have e7 : sliceInt (0x43 :: bigEndian8 L ++ tb ++ bigEndian8 hv) spare
      (((1 : Nat) : Int) + 8) ((9 + L : Nat) : Int) = .ok tb := by
    rw [sliceInt_nat _ _ _ _ 9 (9 + L) (by norm_num) rfl]
    exact slice_at _ (0x43 :: bigEndian8 L) tb (bigEndian8 hv ++ spare) 9 _ (by simp)
      (by simp [bigEndian8_length]) (by rw [hL])
  have e8 : sliceFromInt (0x43 :: bigEndian8 L ++ tb ++ bigEndian8 hv) ((9 + L : Nat) : Int)
      = .ok (bigEndian8 hv) := by
    rw [sliceFromInt_nat _ _ (9 + L) rfl]
    exact sliceFrom_at _ (0x43 :: bigEndian8 L ++ tb) (bigEndian8 hv) _ (by simp)
      (by simp [bigEndian8_length, hL]; omega)
  have e9 : BigEndianToUint64 (bigEndian8 hv) = .ok hv := by
    have := BigEndianToUint64_bigEndian8 hv [] hhv
    rwa [List.append_nil] at this
  simp only [e1, e2, ok_bind, e3, if_false, e4, e5, e6, e7, hp, e8, e9]
  rfl

/-- C4: for every timestamp `t` and every height `h ≥ 0` (an `int64`),
`ParseGovernorQueueKey(GetGovernorQueueKey(t, h))` returns `(t, h, nil)`,
given that the time decoding of the runtime inverts its time encoding (and
that the key, `len(timeBz) + 17` bytes, has a length that fits an `int`). -/
theorem governor_queue_key_round_trip {Time E : Type} (fmt : Time → Bytes)
    (parse : Bytes → Except E Time) (zero : Time) (spare : Bytes) (t : Time) (h : Int)
    (hinv : ∀ t, parse (fmt t) = .ok t) (hlen : (fmt t).length + 17 < 2 ^ 63)
    (h0 : 0 ≤ h) (h1 : h < 2 ^ 63) :
    (GetGovernorQueueKey fmt t h >>= ParseGovernorQueueKey parse zero spare)
      = .ok (t, h, none) := by
  have hm : (fmt t).length % 2 ^ 64 = (fmt t).length := Nat.mod_eq_of_lt (by omega)
  have hu : uint64 h = h.toNat := uint64_of_nonneg h h0 (by omega)
  rw [GetGovernorQueueKey_eq, ok_bind, hm,
    ParseGovernorQueueKey_at parse zero spare (fmt t).length (uint64 h) (fmt t) t rfl
      (by omega)
      (by rw [hu]; omega) (hinv t),
    hu, int64_of_lt _ (by omega), Int.toNat_of_nonneg h0]

theorem governor_queue_key_round_trip_witness :
    (∀ t : Bytes, (fun b : Bytes => (Except.ok b : Except Unit Bytes)) ((fun t => t) t)
      = .ok t) ∧
    ([1, 2, 3, 4, 5, 6, 7, 8, 9, 10, 11] : Bytes).length + 17 < 2 ^ 63 ∧
    (GetGovernorQueueKey (fun t : Bytes => t) [1, 2, 3, 4, 5, 6, 7, 8, 9, 10, 11] 100
      >>= ParseGovernorQueueKey (fun b : Bytes => (Except.ok b : Except Unit Bytes)) [] [])
      = .ok ([1, 2, 3, 4, 5, 6, 7, 8, 9, 10, 11], 100, none) :=
  ⟨fun _ => rfl, by norm_num,
    governor_queue_key_round_trip (fun t : Bytes => t)
      (fun b : Bytes => (Except.ok b : Except Unit Bytes)) [] []
      [1, 2, 3, 4, 5, 6, 7, 8, 9, 10, 11] 100 (fun _ => rfl) (by norm_num) (by norm_num)
      (by norm_num)⟩

theorem slice_error_eq (s : Bytes) (lo hi : Nat) (e : Panic)
    (h : slice s lo hi = .error e) : e = .outOfRange := by
  unfold slice at h
  split at h
  · exact Except.noConfusion h
  · exact (Except.error.inj h).symm

theorem BigEndianToUint64_error_eq (bz : Bytes) (e : Panic)
    (h : BigEndianToUint64 bz = .error e) : e = .outOfRange := by
  unfold BigEndianToUint64 at h
  split at h
  · exact Except.noConfusion h
  · unfold Uint64 at h
    split at h
    · exact Except.noConfusion h
    · exact (Except.error.inj h).symm

theorem sliceInt_error_eq (s spare : Bytes) (lo hi : Int) (e : Panic)
    (h : sliceInt s spare lo hi = .error e) : e = .outOfRange := by
  unfold sliceInt at h
  split at h
  · exact slice_error_eq _ _ _ e h
  · exact (Except.error.inj h).symm

theorem sliceInt_ok_bounds (s spare : Bytes) (lo hi : Int) (r : Bytes)
    (h : sliceInt s spare lo hi = .ok r) : 0 ≤ hi ∧ lo.toNat ≤ hi.toNat := by
  unfold sliceInt at h
  split at h
  · rename_i hb
    unfold sliceCap slice at h
    split at h
    · rename_i hs
      exact ⟨hb.2, hs.1⟩
    · exact Except.noConfusion h
  · exact Except.noConfusion h

theorem sliceFromInt_beyond (s : Bytes) (lo : Int) (h : s.length < lo.toNat) :
    sliceFromInt s lo = .error .outOfRange := by
  unfold sliceFromInt
  split
  · have hn : ¬ (lo.toNat ≤ s.length ∧ s.length ≤ s.length) := by omega
    simp only [sliceFrom, slice, hn, if_false]
  · rfl

theorem ParseGovernorQueueKey_first_byte {Time E : Type} (parse : Bytes → Except E Time)
    (zero : Time) (spare : Bytes) (p : Byte) (rest : Bytes) (hp : p ≠ 0x43) :
    ParseGovernorQueueKey parse zero spare (p :: rest)
      = .ok (zero, 0, some (QueueKeyError.invalidPrefix [0x43] [p])) := by
  have e2 : sliceTo (p :: rest) spare GovernorQueueKey.length = .ok [p] := by
    simp only [sliceTo, sliceCap]
    exact slice_at _ [] [p] (rest ++ spare) 0 1 rfl rfl rfl
  have e3 : ([p] : Bytes) ≠ GovernorQueueKey := by
    intro h
    exact hp (List.head_eq_of_cons_eq h)
  unfold ParseGovernorQueueKey
  simp only [e2, ok_bind]
  rw [if_pos e3]
  rfl

/-- On a buffer shorter than 9 bytes, whatever its spare capacity, the parser
aborts on a slice expression or returns the zero time, height 0 and an error. -/
theorem ParseGovernorQueueKey_short {Time E : Type} (parse : Bytes → Except E Time)
    (zero : Time) (spare bz : Bytes) (hlen : bz.length < 9) :
    ParseGovernorQueueKey parse zero spare bz = .error .outOfRange ∨
      ∃ e, ParseGovernorQueueKey parse zero spare bz = .ok (zero, 0, some e) := by
  have e1 : GovernorQueueKey.length = 1 := rfl
  unfold ParseGovernorQueueKey
  simp only [e1]
  cases h1 : sliceTo bz spare 1 with
  | error e =>
    left
    rw [slice_error_eq _ _ _ e h1]
    rfl
  | ok pfx =>
    simp only [ok_bind]
    by_cases hp : pfx ≠ GovernorQueueKey
    · right
      rw [if_pos hp]
      exact ⟨_, rfl⟩
    · rw [if_neg hp]
      cases h2 : sliceCap bz spare 1 (1 + 8) with
      | error e =>
        left
        rw [slice_error_eq _ _ _ e h2]
        rfl
      | ok lb =>
        simp only [ok_bind]
        cases h3 : BigEndianToUint64 lb with
        | error e =>
          left
          rw [BigEndianToUint64_error_eq _ e h3]
          rfl
        | ok v =>
          simp only [ok_bind]
          cases h4 : sliceInt bz spare (((1 : Nat) : Int) + 8)
              (wrapInt (((1 : Nat) : Int) + 8 + int64 v)) with
          | error e =>
            left
            rw [sliceInt_error_eq _ _ _ _ e h4]
            rfl
          | ok tsBz =>
            simp only [ok_bind]
            cases h5 : parse tsBz with
            | error err =>
              right
              exact ⟨_, rfl⟩
            | ok ts =>
              left
              have hb := sliceInt_ok_bounds _ _ _ _ _ h4
              have h9 : (((1 : Nat) : Int) + 8).toNat = 9 := rfl
              rw [h9] at hb
              have h6 := sliceFromInt_beyond bz
                (wrapInt (((1 : Nat) : Int) + 8 + int64 v)) (by omega)
              simp only [h6, error_bind]

/-- C8, as amended: for every buffer `bz` shorter than 9 bytes, whatever its
spare capacity, `ParseGovernorQueueKey(bz)` never returns a time and height
with a `nil` error: it either returns the zero time, height 0 and a non-nil
error (the invalid-prefix error or the error of the time decoding), or aborts
on a slice expression whose bounds are out of range. When `bz` is non-empty
and its first byte is not `0x43`, it returns the invalid-prefix error; when
the capacity of `bz` is its length and `bz` is empty or starts with `0x43`,
it aborts. -/
theorem governor_queue_key_truncated {Time E : Type} (parse : Bytes → Except E Time)
    (zero : Time) (spare bz : Bytes) (hlen : bz.length < 9) :
    (ParseGovernorQueueKey parse zero spare bz = .error .outOfRange ∨
      ∃ e, ParseGovernorQueueKey parse zero spare bz = .ok (zero, 0, some e)) ∧
    (∀ p rest, bz = p :: rest → p ≠ 0x43 →
      ParseGovernorQueueKey parse zero spare bz
        = .ok (zero, 0, some (QueueKeyError.invalidPrefix [0x43] [p]))) ∧
    (spare = [] → (bz = [] ∨ ∃ rest, bz = 0x43 :: rest) →
      ParseGovernorQueueKey parse zero spare bz = .error .outOfRange) := by
  refine ⟨ParseGovernorQueueKey_short parse zero spare bz hlen, ?_, ?_⟩
  · intro p rest hbz hp
    subst hbz
    exact ParseGovernorQueueKey_first_byte parse zero spare p rest hp
  · intro hs hbz
    subst hs
    rcases hbz with hnil | ⟨rest, hcons⟩
    · subst hnil
      rfl
    · subst hcons
      have e2 : sliceTo (0x43 :: rest) [] GovernorQueueKey.length = .ok [0x43] := by
        simp only [sliceTo, sliceCap]
        exact slice_at _ [] [0x43] (rest ++ []) 0 1 rfl rfl rfl
      have e3 : ¬ ([0x43] : Bytes) ≠ GovernorQueueKey := by decide
      have e4 : sliceCap (0x43 :: rest) [] GovernorQueueKey.length
          (GovernorQueueKey.length + 8) = .error .outOfRange := by
        have hl : ¬ (GovernorQueueKey.length ≤ GovernorQueueKey.length + 8
            ∧ GovernorQueueKey.length + 8 ≤ ((0x43 :: rest : Bytes) ++ []).length) := by
          simp only [GovernorQueueKey, List.length_cons, List.length_nil,
            List.append_nil] at hlen ⊢
          omega
        simp only [sliceCap, slice, hl, if_false]
      unfold ParseGovernorQueueKey
      simp only [e2, ok_bind, e3, if_false, e4, error_bind]

theorem governor_queue_key_truncated_witness :
    ([0x43, 0, 0, 0, 0, 0, 0, 0] : Bytes).length < 9 ∧
    ParseGovernorQueueKey (fun b : Bytes => (Except.ok b : Except Unit Bytes)) [] []
      [0x43, 0, 0, 0, 0, 0, 0, 0] = .error .outOfRange ∧
    ParseGovernorQueueKey (fun b : Bytes => (Except.ok b : Except Unit Bytes)) [] []
      [0x42, 0] = .ok ([], 0, some (QueueKeyError.invalidPrefix [0x43] [0x42])) ∧
    ParseGovernorQueueKey (fun b : Bytes => (Except.ok b : Except Unit Bytes)) []
      (List.replicate 16 0) []
      = .ok ([], 0, some (QueueKeyError.invalidPrefix [0x43] [0x00])) :=
  ⟨by decide,
    (governor_queue_key_truncated (fun b : Bytes => (Except.ok b : Except Unit Bytes)) []
      [] [0x43, 0, 0, 0, 0, 0, 0, 0] (by decide)).2.2 rfl (Or.inr ⟨_, rfl⟩),
    (governor_queue_key_truncated (fun b : Bytes => (Except.ok b : Except Unit Bytes)) []
      [] [0x42, 0] (by decide)).2.1 0x42 [0] rfl (by decide),
    by decide⟩

/-- C8 fails as stated: on the empty buffer of capacity 0, and on the 3-byte
buffer `43 00 00` of capacity 3, `ParseGovernorQueueKey` returns no error
value; it aborts on the slice expressions `bz[:1]` and `bz[1:9]`, whose
bounds are out of range. -/
theorem governor_queue_key_truncated_aborts :
    ParseGovernorQueueKey (fun b : Bytes => (Except.ok b : Except Unit Bytes)) [] [] []
      = .error .outOfRange ∧
    ParseGovernorQueueKey (fun b : Bytes => (Except.ok b : Except Unit Bytes)) [] []
      [0x43, 0, 0] = .error .outOfRange := by
  decide

/-- C11: for every timestamp with time encoding `timeBz` (shorter than `2^64`
bytes) and every height `h`, `GetGovernorQueueKey` returns `0x43`, then eight
bytes whose big-endian value is `len(timeBz)`, then `timeBz`, then eight bytes
whose big-endian value is `uint64(h)` (`h` itself for `h ≥ 0`), so its length
is `1 + 8 + len(timeBz) + 8`; with a time encoding of 11 bytes that the
runtime decodes and height 100 the buffer has length 28 and
`ParseGovernorQueueKey` recovers height 100 with a `nil` error. -/
theorem governor_queue_key_layout {Time E : Type} (fmt : Time → Bytes)
    (parse : Bytes → Except E Time) (zero : Time) (spare : Bytes) (t : Time) (h : Int)
    (hlen : (fmt t).length < 2 ^ 64) (hh1 : h < 2 ^ 63) :
    (∃ lenBz heightBz : Bytes,
      GetGovernorQueueKey fmt t h = .ok (0x43 :: lenBz ++ fmt t ++ heightBz) ∧
      lenBz.length = 8 ∧ bigEndianValue lenBz = (fmt t).length ∧
      heightBz.length = 8 ∧ bigEndianValue heightBz = uint64 h ∧
      (0 ≤ h → (uint64 h : Int) = h) ∧
      (0x43 :: lenBz ++ fmt t ++ heightBz).length = 1 + 8 + (fmt t).length + 8) ∧
    ((fmt t).length = 11 → ∀ ts, parse (fmt t) = .ok ts →
      ∃ key, GetGovernorQueueKey fmt t 100 = .ok key ∧ key.length = 28 ∧
        ParseGovernorQueueKey parse zero spare key = .ok (ts, 100, none)) := by
  have hm : (fmt t).length % 2 ^ 64 = (fmt t).length := Nat.mod_eq_of_lt hlen
  have hu : uint64 h < 2 ^ 64 := by
    unfold uint64
    have := Int.emod_lt_of_pos h (show (0 : Int) < 2 ^ 64 by norm_num)
    have := Int.emod_nonneg h (show (2 ^ 64 : Int) ≠ 0 by norm_num)
    omega
  refine ⟨⟨bigEndian8 (fmt t).length, bigEndian8 (uint64 h), ?_, bigEndian8_length _,
    bigEndianValue_bigEndian8 _ hlen, bigEndian8_length _, bigEndianValue_bigEndian8 _ hu,
    ?_, ?_⟩, ?_⟩
  · rw [GetGovernorQueueKey_eq, hm]
  · intro h0
    rw [uint64_of_nonneg h h0 (by omega), Int.toNat_of_nonneg h0]
  · simp only [List.length_cons, List.length_append, bigEndian8_length]
  · intro h11 ts hts
    have hm11 : (fmt t).length % 2 ^ 64 = 11 := by rw [h11]; norm_num
    have hu100 : uint64 100 = 100 := rfl
    refine ⟨_, GetGovernorQueueKey_eq fmt t 100, ?_, ?_⟩
    · simp only [List.length_cons, List.length_append, bigEndian8_length, h11]
    · rw [hm11, hu100,
        ParseGovernorQueueKey_at parse zero spare 11 100 (fmt t) ts h11 (by norm_num)
          (by norm_num) hts]
      rfl

theorem governor_queue_key_layout_witness :
    ∃ key, GetGovernorQueueKey (fun t : Bytes => t) [1, 2, 3, 4, 5, 6, 7, 8, 9, 10, 11] 100
        = .ok key ∧ key.length = 28 ∧
      ParseGovernorQueueKey (fun b : Bytes => (Except.ok b : Except Unit Bytes)) [] [] key
        = .ok ([1, 2, 3, 4, 5, 6, 7, 8, 9, 10, 11], 100, none) :=
  (governor_queue_key_layout (fun t : Bytes => t)
    (fun b : Bytes => (Except.ok b : Except Unit Bytes)) [] []
    [1, 2, 3, 4, 5, 6, 7, 8, 9, 10, 11] 100 (by norm_num) (by norm_num)).2
    rfl [1, 2, 3, 4, 5, 6, 7, 8, 9, 10, 11] rfl

/-- C13: for every buffer of at least one byte whose leading byte differs from
the governor-queue prefix `0x43`, `ParseGovernorQueueKey` returns the zero
time, height 0 and the invalid-prefix error, which holds the expected prefix
`43` and the observed leading byte, whatever the rest of the buffer is. -/
theorem governor_queue_key_prefix_mismatch {Time E : Type} (parse : Bytes → Except E Time)
    (zero : Time) (spare : Bytes) (p : Byte) (rest : Bytes) (hp : p ≠ 0x43) :
    ParseGovernorQueueKey parse zero spare (p :: rest)
      = .ok (zero, 0, some (QueueKeyError.invalidPrefix GovernorQueueKey [p])) ∧
    GovernorQueueKey = [0x43] := by
  have e2 : sliceTo (p :: rest) spare GovernorQueueKey.length = .ok [p] := by
    simp only [sliceTo, sliceCap]
    exact slice_at _ [] [p] (rest ++ spare) 0 1 rfl rfl rfl
  have e3 : ([p] : Bytes) ≠ GovernorQueueKey := by
    intro h
    exact hp (List.head_eq_of_cons_eq h)
  refine ⟨?_, rfl⟩
  unfold ParseGovernorQueueKey
  simp only [e2, ok_bind]
  rw [if_pos e3]
  rfl

theorem governor_queue_key_prefix_mismatch_witness :
    (0x42 : Byte) ≠ 0x43 ∧
    ParseGovernorQueueKey (fun b : Bytes => (Except.ok b : Except Unit Bytes)) [] []
      [0x42, 0, 0, 0, 0, 0, 0, 0, 0, 7, 0, 0, 0, 0, 0, 0, 0, 100]
      = .ok ([], 0, some (QueueKeyError.invalidPrefix [0x43] [0x42])) :=
  ⟨by decide,
    (governor_queue_key_prefix_mismatch (fun b : Bytes => (Except.ok b : Except Unit Bytes))
      [] [] 0x42 [0, 0, 0, 0, 0, 0, 0, 0, 7, 0, 0, 0, 0, 0, 0, 0, 100] (by decide)).1⟩

set_option maxRecDepth 8192 in
/-- C14: the fifteen registered store prefixes each consist of exactly one
byte and are pairwise distinct, so no prefix is a byte-prefix of another. -/
theorem store_prefixes_disjoint :
    storePrefixes.length = 15 ∧
    (∀ p ∈ storePrefixes, p.length = 1) ∧
    storePrefixes.Nodup ∧
    (∀ p ∈ storePrefixes, ∀ q ∈ storePrefixes, p ≠ q → ¬ p.isPrefixOf q = true) := by
  decide

/-! ## Redelegation and delegation keys -/

/-- C12, as amended: for all addresses `delegator`, `src`, `dst` of at most
255 bytes each, `GetREDKey` produces `0x34 ‖ len(delegator) ‖ delegator ‖
len(src) ‖ src ‖ len(dst) ‖ dst`; when `src` is non-empty,
`GetREDByValSrcIndexKey` produces `0x35 ‖ len(src) ‖ src ‖ len(delegator) ‖
delegator ‖ len(dst) ‖ dst`; when `dst` is non-empty, `GetREDByValDstIndexKey`
produces `0x36 ‖ len(dst) ‖ dst ‖ len(delegator) ‖ delegator ‖ len(src) ‖
src`; each length is one byte whose value is the length. -/
theorem redelegation_key_layout (del src dst : Bytes) (hd : del.length ≤ 255)
    (hs : src.length ≤ 255) (ht : dst.length ≤ 255) :
    (byteOf del.length).val = del.length ∧ (byteOf src.length).val = src.length ∧
    (byteOf dst.length).val = dst.length ∧
    GetREDKey del src dst
      = .ok (0x34 :: byteOf del.length :: del ++ byteOf src.length :: src
          ++ byteOf dst.length :: dst) ∧
    (0 < src.length → GetREDByValSrcIndexKey del src dst
      = .ok (0x35 :: byteOf src.length :: src ++ byteOf del.length :: del
          ++ byteOf dst.length :: dst)) ∧
    (0 < dst.length → GetREDByValDstIndexKey del src dst
      = .ok (0x36 :: byteOf dst.length :: dst ++ byteOf del.length :: del
          ++ byteOf src.length :: src)) :=
  ⟨byteOf_val _ hd, byteOf_val _ hs, byteOf_val _ ht, GetREDKey_eq del src dst hd,
    fun h0 => GetREDByValSrcIndexKey_eq del src dst h0 hs,
    fun h0 => GetREDByValDstIndexKey_eq del src dst h0 ht⟩

theorem redelegation_key_layout_witness :
    GetREDKey [1, 2] [3] [4, 5, 6] = .ok [0x34, 2, 1, 2, 1, 3, 3, 4, 5, 6] ∧
    GetREDByValSrcIndexKey [1, 2] [3] [4, 5, 6] = .ok [0x35, 1, 3, 2, 1, 2, 3, 4, 5, 6] ∧
    GetREDByValDstIndexKey [1, 2] [3] [4, 5, 6] = .ok [0x36, 3, 4, 5, 6, 2, 1, 2, 1, 3] :=
  ⟨(redelegation_key_layout [1, 2] [3] [4, 5, 6] (by decide) (by decide) (by decide)).2.2.2.1,
    (redelegation_key_layout [1, 2] [3] [4, 5, 6] (by decide) (by decide)
      (by decide)).2.2.2.2.1 (by decide),
    (redelegation_key_layout [1, 2] [3] [4, 5, 6] (by decide) (by decide)
      (by decide)).2.2.2.2.2 (by decide)⟩

/-- C12 fails as stated: with an empty source address the source-index key
is `35 01 01 01 03`, and with an empty destination address the
destination-index key is `36 01 01 01 02`; neither holds a length byte for
its first address. -/
theorem redelegation_index_key_empty_first :
    GetREDByValSrcIndexKey [1] [] [3] = .ok [0x35, 1, 1, 1, 3] ∧
    GetREDByValSrcIndexKey [1] [] [3] ≠ .ok [0x35, 0, 1, 1, 1, 3] ∧
    GetREDByValDstIndexKey [1] [2] [] = .ok [0x36, 1, 1, 1, 2] ∧
    GetREDByValDstIndexKey [1] [2] [] ≠ .ok [0x36, 0, 1, 1, 1, 2] := by
  decide

/-- For a delegator address of 1 to 255 bytes the key of `GetREDKey` has the
form its comment states. -/
theorem GetREDKey_eq_GetREDsKey_append (del src dst : Bytes) (h0 : 0 < del.length)
    (h1 : del.length ≤ 255) :
    ∃ pre, GetREDsKey del = .ok pre ∧
      GetREDKey del src dst
        = .ok (pre ++ byteOf src.length :: src ++ byteOf dst.length :: dst) :=
  ⟨_, GetREDsKey_ok del h0 h1, by rw [GetREDKey_eq del src dst h1]⟩

/-- C16, the code at the failing input: for the empty delegator address,
source `02` and destination `03`, `GetREDsKey` returns `34` alone, so the
form stated in the comment of `GetREDKey` is `34 01 02 01 03`, while
`GetREDKey` returns `34 00 01 02 01 03`. -/
theorem GetREDKey_empty_delegator :
    GetREDsKey [] = .ok [0x34] ∧
    GetREDKey [] [2] [3] = .ok [0x34, 0, 1, 2, 1, 3] ∧
    GetREDKey [] [2] [3]
      ≠ (GetREDsKey []).map
          (fun pre => pre ++ byteOf ([2] : Bytes).length :: [2]
            ++ byteOf ([3] : Bytes).length :: [3]) := by
  decide

/-- C19: for all addresses with `src` and `dst` non-empty, each at most 255
bytes, `len(delegator) + len(src) + 3 ≤ 255` and
`len(delegator) + len(dst) + 3 ≤ 255`, both
`GetREDKeyFromValSrcIndexKey(GetREDByValSrcIndexKey(delegator, src, dst))` and
`GetREDKeyFromValDstIndexKey(GetREDByValDstIndexKey(delegator, src, dst))`
return (every length assertion passes) and equal
`GetREDKey(delegator, src, dst)`. -/
theorem red_index_round_trips (del src dst : Bytes) (hs0 : 0 < src.length)
    (ht0 : 0 < dst.length) (hs : del.length + src.length + 3 ≤ 255)
    (ht : del.length + dst.length + 3 ≤ 255) :
    ∃ key, GetREDKey del src dst = .ok key ∧
      (GetREDByValSrcIndexKey del src dst >>= GetREDKeyFromValSrcIndexKey) = .ok key ∧
      (GetREDByValDstIndexKey del src dst >>= GetREDKeyFromValDstIndexKey) = .ok key := by
  refine ⟨_, GetREDKey_eq del src dst (by omega), ?_, ?_⟩
  · rw [GetREDByValSrcIndexKey_eq del src dst hs0 (by omega), ok_bind,
      GetREDKeyFromValSrcIndexKey_at _ _ del src dst (by omega) ht0]
    exact GetREDKey_eq del src dst (by omega)
  · rw [GetREDByValDstIndexKey_eq del src dst ht0 (by omega), ok_bind,
      GetREDKeyFromValDstIndexKey_at _ _ del src dst (by omega) hs0]
    exact GetREDKey_eq del src dst (by omega)

theorem red_index_round_trips_witness :
    ∃ key, GetREDKey [1, 2] [3] [4, 5, 6] = .ok key ∧
      (GetREDByValSrcIndexKey [1, 2] [3] [4, 5, 6] >>= GetREDKeyFromValSrcIndexKey)
        = .ok key ∧
      (GetREDByValDstIndexKey [1, 2] [3] [4, 5, 6] >>= GetREDKeyFromValDstIndexKey)
        = .ok key :=
  red_index_round_trips [1, 2] [3] [4, 5, 6] (by decide) (by decide) (by decide) (by decide)

theorem GetDelegationKey_ok (del val : Bytes) (hd0 : 0 < del.length) (hd1 : del.length ≤ 255)
    (hv0 : 0 < val.length) (hv1 : val.length ≤ 255) :
    GetDelegationKey del val
      = .ok (0x31 :: byteOf del.length :: del ++ byteOf val.length :: val) := by
  unfold GetDelegationKey GetDelegationsKey
  rw [simpleKey_ok _ del hd0 hd1, MustLengthPrefix_ok val hv0 hv1]
  rfl

/-- C20: `GetDelegationKey` is injective on non-empty addresses: for all
delegator addresses `d1`, `d2` and governor addresses `v1`, `v2`, each of 1 to
255 bytes, the builder returns a key for each pair, and equal keys imply
`d1 = d2` and `v1 = v2`. -/
theorem delegation_key_injective (d1 v1 d2 v2 : Bytes)
    (hd1 : 0 < d1.length ∧ d1.length ≤ 255) (hv1 : 0 < v1.length ∧ v1.length ≤ 255)
    (hd2 : 0 < d2.length ∧ d2.length ≤ 255) (hv2 : 0 < v2.length ∧ v2.length ≤ 255)
    (heq : GetDelegationKey d1 v1 = GetDelegationKey d2 v2) :
    (∃ key, GetDelegationKey d1 v1 = .ok key) ∧ d1 = d2 ∧ v1 = v2 := by
  have e1 := GetDelegationKey_ok d1 v1 hd1.1 hd1.2 hv1.1 hv1.2
  have e2 := GetDelegationKey_ok d2 v2 hd2.1 hd2.2 hv2.1 hv2.2
  refine ⟨⟨_, e1⟩, ?_⟩
  rw [e1, e2] at heq
  have hl := Except.ok.inj heq
  simp only [List.cons_append, List.cons.injEq, true_and] at hl
  obtain ⟨hlen, hrest⟩ := hl
  have hlen' : d1.length = d2.length := by
    have := congrArg Fin.val hlen
    rwa [byteOf_val _ hd1.2, byteOf_val _ hd2.2] at this
  obtain ⟨hd, hv⟩ := List.append_inj hrest hlen'
  exact ⟨hd, (List.cons.inj hv).2⟩

theorem delegation_key_injective_witness :
    GetDelegationKey [1, 2] [3] = GetDelegationKey [1, 2] [3] ∧
    (∃ key, GetDelegationKey [1, 2] [3] = .ok key) ∧
    ([1, 2] : Bytes) = [1, 2] ∧ ([3] : Bytes) = [3] :=
  ⟨rfl, delegation_key_injective [1, 2] [3] [1, 2] [3] (by decide) (by decide) (by decide)
    (by decide) rfl⟩

/-! ## Order of the time keys and of the power-rank keys at equal power -/

theorem bytesCompare_append_same (pre p q : Bytes) :
    bytesCompare (pre ++ p) (pre ++ q) = bytesCompare p q := by
  induction pre with
  | nil => rfl
  | cons b t ih => rw [List.cons_append, List.cons_append, bytesCompare_cons_same, ih]

theorem bytesCompare_append_lt (p q : Bytes) (hlen : p.length = q.length)
    (h : bytesCompare p q = .lt) (x y : Bytes) :
    bytesCompare (p ++ x) (q ++ y) = .lt := by
  induction p generalizing q with
  | nil =>
    have hq : q = [] := List.length_eq_zero.mp hlen.symm
    subst hq
    simp [bytesCompare] at h
  | cons a p ih =>
    cases q with
    | nil => simp at hlen
    | cons b q =>
      have hl : p.length = q.length := by simpa using hlen
      simp only [List.cons_append, bytesCompare] at h ⊢
      by_cases h1 : a.val < b.val
      · simp [h1]
      · by_cases h2 : b.val < a.val
        · simp [h1, h2] at h
        · simp only [h1, h2, if_false] at h ⊢
          exact ih q hl h

theorem bytesCompare_map_complement (p q : Bytes) (hlen : p.length = q.length)
    (h : bytesCompare p q = .lt) :
    bytesCompare (p.map complement) (q.map complement) = .gt := by
  induction p generalizing q with
  | nil =>
    have hq : q = [] := List.length_eq_zero.mp hlen.symm
    subst hq
    simp [bytesCompare] at h
  | cons a p ih =>
    cases q with
    | nil => simp at hlen
    | cons b q =>
      have hl : p.length = q.length := by simpa using hlen
      have ha : (complement a).val = 255 - a.val := rfl
      have hb : (complement b).val = 255 - b.val := rfl
      have hal := a.isLt
      have hbl := b.isLt
      simp only [List.map_cons, bytesCompare, ha, hb] at h ⊢
      by_cases h1 : a.val < b.val
      · have n1 : ¬ (255 - a.val < 255 - b.val) := by omega
        have n2 : 255 - b.val < 255 - a.val := by omega
        simp [n1, n2]
      · by_cases h2 : b.val < a.val
        · simp [h1, h2] at h
        · have n1 : ¬ (255 - a.val < 255 - b.val) := by omega
          have n2 : ¬ (255 - b.val < 255 - a.val) := by omega
          simp only [h1, h2, n1, n2, if_false] at h ⊢
          exact ih q hl h

/-- C15: for all timestamps `t1` earlier than `t2` and all heights `h1`, `h2`,
assuming the time encoding of the runtime is fixed-width and strictly
order-preserving, the keys of `GetUnbondingDelegationTimeKey`, of
`GetRedelegationTimeKey` and of `GetGovernorQueueKey` for `t1` are smaller in
byte-lexicographic order than those for `t2`. -/
theorem time_keys_order {Time : Type} (fmt : Time → Bytes) (earlier : Time → Time → Prop)
    (hwidth : ∀ t1 t2, (fmt t1).length = (fmt t2).length)
    (hord : ∀ t1 t2, earlier t1 t2 → bytesCompare (fmt t1) (fmt t2) = .lt)
    (t1 t2 : Time) (h1 h2 : Int) (ht : earlier t1 t2) :
    bytesCompare (GetUnbondingDelegationTimeKey fmt t1)
      (GetUnbondingDelegationTimeKey fmt t2) = .lt ∧
    bytesCompare (GetRedelegationTimeKey fmt t1) (GetRedelegationTimeKey fmt t2) = .lt ∧
    ∃ k1 k2, GetGovernorQueueKey fmt t1 h1 = .ok k1 ∧
      GetGovernorQueueKey fmt t2 h2 = .ok k2 ∧ bytesCompare k1 k2 = .lt := by
  refine ⟨?_, ?_, _, _, GetGovernorQueueKey_eq fmt t1 h1, GetGovernorQueueKey_eq fmt t2 h2,
    ?_⟩
  · unfold GetUnbondingDelegationTimeKey
    rw [bytesCompare_append_same]
    exact hord t1 t2 ht
  · unfold GetRedelegationTimeKey
    rw [bytesCompare_append_same]
    exact hord t1 t2 ht
  · rw [hwidth t1 t2, List.cons_append, List.cons_append, List.cons_append,
      List.cons_append, bytesCompare_cons_same, List.append_assoc, List.append_assoc,
      bytesCompare_append_same]
    exact bytesCompare_append_lt _ _ (hwidth t1 t2) (hord t1 t2 ht) _ _

theorem time_keys_order_witness :
    bytesCompare (GetUnbondingDelegationTimeKey (fun t : Byte => [t]) 3)
      (GetUnbondingDelegationTimeKey (fun t : Byte => [t]) 7) = .lt ∧
    bytesCompare (GetRedelegationTimeKey (fun t : Byte => [t]) 3)
      (GetRedelegationTimeKey (fun t : Byte => [t]) 7) = .lt ∧
    ∃ k1 k2, GetGovernorQueueKey (fun t : Byte => [t]) 3 900 = .ok k1 ∧
      GetGovernorQueueKey (fun t : Byte => [t]) 7 100 = .ok k2 ∧ bytesCompare k1 k2 = .lt :=
  time_keys_order (fun t : Byte => [t]) (fun a b => a.val < b.val) (fun _ _ => rfl)
    (fun a b hab => by simp [bytesCompare, hab]) 3 7 900 100 (by decide)

/-- C18: for every consensus power `n` and every two operator addresses `a1`,
`a2` of the same length with `a1` lexicographically smaller than `a2` (so
distinct), the power-rank key built for `(a1, n)` is lexicographically greater
than the key built for `(a2, n)`, and the two keys differ. -/
theorem power_rank_key_tiebreak (dec : String → Option Bytes) (g1 g2 : Governor) (pr : Int)
    (a1 a2 : Bytes) (n : Int)
    (hdec1 : dec g1.OperatorAddress = some a1) (hdec2 : dec g2.OperatorAddress = some a2)
    (hpow1 : TokensToConsensusPower g1.Tokens pr = .ok n)
    (hpow2 : TokensToConsensusPower g2.Tokens pr = .ok n)
    (hlen : a1.length = a2.length) (hlt : bytesCompare a1 a2 = .lt) :
    ∃ k1 k2, GetGovernorsByPowerIndexKey dec g1 pr = .ok k1 ∧
      GetGovernorsByPowerIndexKey dec g2 pr = .ok k2 ∧
      bytesCompare k1 k2 = .gt ∧ k1 ≠ k2 := by
  have hgt : bytesCompare
      (0x23 :: bigEndian8 (uint64 n) ++ byteOf a1.length :: a1.map complement)
      (0x23 :: bigEndian8 (uint64 n) ++ byteOf a2.length :: a2.map complement) = .gt := by
    rw [hlen]
    have e : ∀ a : Bytes, (0x23 :: bigEndian8 (uint64 n) ++ byteOf a2.length :: a : Bytes)
        = (0x23 :: bigEndian8 (uint64 n) ++ [byteOf a2.length]) ++ a := by
      intro a
      simp
    rw [e (a1.map complement), e (a2.map complement), bytesCompare_append_same]
    exact bytesCompare_map_complement a1 a2 hlen hlt
  refine ⟨_, _, GetGovernorsByPowerIndexKey_eq dec g1 pr a1 n hdec1 hpow1,
    GetGovernorsByPowerIndexKey_eq dec g2 pr a2 n hdec2 hpow2, hgt, ?_⟩
  intro heq
  rw [heq] at hgt
  have hself : ∀ l : Bytes, bytesCompare l l = .eq := by
    intro l
    induction l with
    | nil => rfl
    | cons b t ih => rw [bytesCompare_cons_same, ih]
  rw [hself] at hgt
  exact Ordering.noConfusion hgt

theorem power_rank_key_tiebreak_witness :
    ∃ k1 k2,
      GetGovernorsByPowerIndexKey
        (fun s => if s = "a" then some [0x0A, 0x0B] else some [0x0A, 0x0C])
        (Governor.mk "a" 5000000) 1000000 = .ok k1 ∧
      GetGovernorsByPowerIndexKey
        (fun s => if s = "a" then some [0x0A, 0x0B] else some [0x0A, 0x0C])
        (Governor.mk "b" 5000000) 1000000 = .ok k2 ∧
      bytesCompare k1 k2 = .gt ∧ k1 ≠ k2 :=
  power_rank_key_tiebreak (fun s => if s = "a" then some [0x0A, 0x0B] else some [0x0A, 0x0C])
    (Governor.mk "a" 5000000) (Governor.mk "b" 5000000) 1000000 [0x0A, 0x0B] [0x0A, 0x0C] 5
    rfl rfl rfl rfl rfl rfl

/-! ## The index-key parsers beyond the range of their byte offsets -/

set_option maxRecDepth 100000 in
/-- C17, the code at the failing inputs. The parsers add the length bytes in
the type `byte`, while the assertions add them as `int`.

* On `35 FF` followed by 256 zero bytes (and likewise with the prefixes `36`
  and `33`) both assertions made so far pass, and the slice expression
  `addrs[1 : valSrcAddrLen+1]`, now `addrs[1:0]`, is out of range.
* On the index key built for delegator `01 02 03`, a source (destination)
  address of 250 bytes `AA` and destination (source) `09`, every assertion
  passes, the offset `250 + 3 + 3` wraps to 0, the last address is sliced as
  the whole 257-byte `addrs`, and the parser returns a key that is not
  `GetREDKey(delegator, src, dst)`.
* On the index key built for delegator `09` and a governor address of 254
  bytes `AA`, every assertion passes, the offset `254 + 2` wraps to 0, the
  delegator is sliced as the whole 257-byte `addrs`, and `GetUBDKey` aborts in
  `address.MustLengthPrefix`. -/
theorem index_key_parsers_byte_wrap :
    GetREDKeyFromValSrcIndexKey (0x35 :: 0xFF :: List.replicate 256 0)
      = .error .outOfRange ∧
    GetREDKeyFromValDstIndexKey (0x36 :: 0xFF :: List.replicate 256 0)
      = .error .outOfRange ∧
    GetUBDKeyFromValIndexKey (0x33 :: 0xFF :: List.replicate 256 0)
      = .error .outOfRange ∧
    (GetREDByValSrcIndexKey [1, 2, 3] (List.replicate 250 0xAA) [9]
        >>= GetREDKeyFromValSrcIndexKey)
      = GetREDKey [1, 2, 3] (List.replicate 250 0xAA)
          (250 :: List.replicate 250 0xAA ++ [3, 1, 2, 3, 1, 9]) ∧
    (GetREDByValSrcIndexKey [1, 2, 3] (List.replicate 250 0xAA) [9]
        >>= GetREDKeyFromValSrcIndexKey)
      ≠ GetREDKey [1, 2, 3] (List.replicate 250 0xAA) [9] ∧
    (GetREDByValDstIndexKey [1, 2, 3] [9] (List.replicate 250 0xAA)
        >>= GetREDKeyFromValDstIndexKey)
      = GetREDKey [1, 2, 3] (250 :: List.replicate 250 0xAA ++ [3, 1, 2, 3, 1, 9])
          (List.replicate 250 0xAA) ∧
    (GetREDByValDstIndexKey [1, 2, 3] [9] (List.replicate 250 0xAA)
        >>= GetREDKeyFromValDstIndexKey)
      ≠ GetREDKey [1, 2, 3] [9] (List.replicate 250 0xAA) ∧
    (GetUBDByValIndexKey [9] (List.replicate 254 0xAA) >>= GetUBDKeyFromValIndexKey)
      = .error .addrTooLong ∧
    (∃ key, GetUBDKey [9] (List.replicate 254 0xAA) = .ok key) := by
  refine ⟨by decide, by decide, by decide, by decide, by decide, by decide, by decide,
    by decide, ?_⟩
  exact ⟨_, GetUBDKey_ok [9] (List.replicate 254 0xAA) (by decide) (by decide)
    (by simp) (by simp)⟩

end Governors

/-! # Genesis transfers on channel confirmation: what is returned -/

namespace HubGenesis

/-- Whenever the wrapped module returns `nil`, `OnChanOpenConfirm` returns
`nil`: the value joined at the end is the variable `err` of the wrapped call,
not the slice `errs`. -/
theorem OnChanOpenConfirm_returns_nil {Metadata : Type} (c : Interceptor Metadata)
    (portID channelID : String) (hnext : c.next portID channelID = none) :
    (OnChanOpenConfirm c portID channelID).returned = none := by
  simp [OnChanOpenConfirm, hnext, isHub, errorsJoin]

theorem transferStep_foldl_sent {Metadata : Type} (c : Interceptor Metadata)
    (portID channelID : String) (l : List (Nat × GenesisAccount))
    (st : List Err × List MsgTransfer) :
    ((l.foldl (transferStep c portID channelID) st).2).map (fun m => m.Receiver)
      = st.2.map (fun m => m.Receiver)
        ++ (l.filter (fun ia =>
              (createMemo c ia.2.Amount.Denom ia.1 c.genesisAccounts.length).isOk)).map
            (fun ia => ia.2.Address) := by
  induction l generalizing st with
  | nil => simp
  | cons ia l ih =>
    rw [List.foldl_cons, ih]
    unfold transferStep
    cases hm : createMemo c ia.2.Amount.Denom ia.1 c.genesisAccounts.length with
    | error e => simp [List.filter_cons, hm, Except.isOk, Except.toBool]
    | ok memo =>
      simp only [List.filter_cons, hm, Except.isOk, Except.toBool, if_true, List.map_cons]
      split <;> simp

/-- When the wrapped module returns `nil`, a message is handed to the transfer
callback for every genesis account whose memo is created, in the order of the
accounts, whatever happened to the accounts before it. -/
theorem OnChanOpenConfirm_attempts_transfers {Metadata : Type} (c : Interceptor Metadata)
    (portID channelID : String) (hnext : c.next portID channelID = none) :
    (OnChanOpenConfirm c portID channelID).sent.map (fun m => m.Receiver)
      = (c.genesisAccounts.enum.filter (fun ia =>
            (createMemo c ia.2.Amount.Denom ia.1 c.genesisAccounts.length).isOk)).map
          (fun ia => ia.2.Address) := by
  have h := transferStep_foldl_sent c portID channelID c.genesisAccounts.enum ([], [])
  simpa [OnChanOpenConfirm, hnext, isHub] using h

/-- C21, the code at the failing input: with three genesis accounts of which
the first has a denom without metadata and the third is refused by the
transfer callback, the transfer of every account with a memo is attempted
(`bob`, `carol`), two errors are collected in `errs`, and the function
returns `nil`, where `errors.Join(errs...)` is not `nil`. -/
theorem OnChanOpenConfirm_drops_collected_errors :
    (OnChanOpenConfirm failingInterceptor "transfer" "channel-0").returned = none ∧
    (OnChanOpenConfirm failingInterceptor "transfer" "channel-0").errs
      = [Err.wrapped (Err.wrapped Err.notFound Context.getDenomMetadata)
          (Context.createMemo { Denom := "nometa", Amount := 10 }),
         Err.wrapped (Err.callback 7)
          (Context.transfer "carol" { Denom := "udym", Amount := 30 })] ∧
    (OnChanOpenConfirm failingInterceptor "transfer" "channel-0").sent.map
      (fun m => m.Receiver) = ["bob", "carol"] ∧
    errorsJoin
      ((OnChanOpenConfirm failingInterceptor "transfer" "channel-0").errs.map some)
      ≠ none := by
  decide

end HubGenesis
